import Mathlib

/-!
# groups-injector: header enrichment handler and identity lookup

A shallow embedding of `main.go`: the HTTP handler closure registered in `main`
and `getUserGroups`. The library collaborators whose behaviour the program does
not fix (the HTTP client, the reverse proxy, URL parsing, the error values of
`encoding/json`) are fields of `Env`; the JSON scanner and the decoding into
`OpenShiftUser` are definitions; effects are recorded in an explicit event trace.
A Go `error` is passed on as the value it is.
-/

namespace GroupsInjector

/-! ## net/http header maps -/

/-- Go `http.Header`, a `map[string][]string`: `none` is an absent key. -/
abbrev Header := String → Option (List String)

/-- The empty header map, as made by `http.NewRequest`. -/
def Header.empty : Header := fun _ => none

/-- Token bytes of a header field name (`textproto.validHeaderFieldByte`):
letters, digits and the RFC 7230 token punctuation. -/
def validHeaderFieldByte (c : Char) : Bool :=
  c.isAlphanum || [33, 35, 36, 37, 38, 39, 42, 43, 45, 46, 94, 95, 96, 124, 126].contains c.toNat

/-- Inner loop of `textproto.canonicalMIMEHeaderKey`: upper-case the first letter
and every letter after a dash, lower-case the others. -/
def canonicalLoop : Bool → List Char → List Char
  | _, [] => []
  | upper, c :: cs =>
    let c1 := if upper && c.isLower then c.toUpper
      else if !upper && c.isUpper then c.toLower else c
    c1 :: canonicalLoop (c1 == '-') cs

/-- Go `textproto.CanonicalMIMEHeaderKey`: a key made of token bytes only is put
in canonical case, any other key is returned unchanged. -/
def CanonicalMIMEHeaderKey (s : String) : String :=
  if s.toList.all validHeaderFieldByte then String.mk (canonicalLoop true s.toList) else s

/-- Go `Header.Get`: the first value stored under the canonical key, or `""`. -/
def Header.Get (h : Header) (key : String) : String :=
  match h (CanonicalMIMEHeaderKey key) with
  | some (v :: _) => v
  | _ => ""

/-- Go `Header.Values`: all values stored under the canonical key. -/
def Header.Values (h : Header) (key : String) : List String :=
  match h (CanonicalMIMEHeaderKey key) with
  | some vs => vs
  | none => []

/-- Go `Header.Set`: the canonical key is bound to the single value, replacing
whatever was stored under it. -/
def Header.Set (h : Header) (key value : String) : Header :=
  fun k => if k = CanonicalMIMEHeaderKey key then some [value] else h k


/-! ## Requests, responses, errors and the event trace -/

/-- A Go `error` value, known by its `Error()` text. -/
structure GoError where
  text : String
  deriving DecidableEq, Repr

/-- Go `err.Error()`. -/
def GoError.Error (err : GoError) : String :=
  err.text

/-- Go `errors.New`, which `fmt.Errorf` calls on the formatted text when no operand
is wrapped: a new error with the given text. -/
def errors.New (text : String) : GoError :=
  { text := text }

deriving instance DecidableEq for Except

/-- The parts of a Go `http.Request` this program touches or passes on. `URL` is
the request's parsed `*url.URL`, printed; `Body` is `none` for a request built
with a nil body. -/
structure Request where
  Method : String
  URL : String
  Header : Header
  Body : Option String

/-- The parts of a Go `http.Response` this program reads, and what the reverse
proxy writes back to the caller. `Body` holds the bytes the body stream delivers
and `BodyErr` the error its reader returns after them, `none` for a clean end. -/
structure Response where
  StatusCode : Int
  Header : Header
  Body : String
  BodyErr : Option GoError

/-- The anonymous `Metadata` struct of `OpenShiftUser`. -/
structure OpenShiftUserMetadata where
  Name : String

/-- Go `OpenShiftUser`: the decoded identity record. -/
structure OpenShiftUser where
  Metadata : OpenShiftUserMetadata
  Groups : List String

/-- Observable steps of one handler run, in program order. `enter` marks entry
into `getUserGroups` with its two string arguments. -/
inductive Event where
  | enter (apiURL token : String)
  | apiCall (req : Request)
  | log (msg : String)
  | forward (r : Request)

/-- The ways `encoding/json` fails on a body: nothing but white space before the
end (`io.EOF`), the end inside a value (`io.ErrUnexpectedEOF`), text that is not
JSON (`*json.SyntaxError`), a value of the wrong JSON type for its field
(`*json.UnmarshalTypeError`). -/
inductive json.Failure where
  | eof
  | unexpectedEOF
  | invalidText
  | typeMismatch
  deriving DecidableEq, Repr

/-- The collaborators the program calls but does not define. -/
structure Env where
  /-- `url.Parse` as `http.NewRequest` runs it on the URL text: the parsed URL with
  an empty port removed from its host, printed, or the error. -/
  parseURL : String → Except GoError String
  /-- `client.Do`: the error or the response. -/
  Do : Request → Except GoError Response
  /-- The error value `encoding/json` returns for a failure of the given kind on
  the given body. -/
  jsonError : json.Failure → String → GoError
  /-- `proxy.ServeHTTP(w, r)`: what the reverse proxy writes to `w`. -/
  ServeHTTP : Request → Response

/-- Go `http.NewRequest` for a valid method: the URL text is parsed; on failure the
parser's error is returned, on success the request has that method, the parsed
URL, an empty header map and the given body. -/
def http.NewRequest (env : Env) (method url : String) (body : Option String) :
    Except GoError Request :=
  match env.parseURL url with
  | .error err => .error err
  | .ok u => .ok { Method := method, URL := u, Header := Header.empty, Body := body }

/-- Loop of Go `strings.Join` over `elems[1:]`: write the separator, then the element. -/
def strings.joinLoop (sep : String) : String → List String → String
  | b, [] => b
  | b, s :: rest => strings.joinLoop sep (b ++ sep ++ s) rest

/-- Go `strings.Join`. -/
def strings.Join (elems : List String) (sep : String) : String :=
  match elems with
  | [] => ""
  | [e] => e
  | e :: rest => strings.joinLoop sep e rest

/-! ## encoding/json: the scanner -/

/-- A JSON value as the scanner reads it. A number keeps its literal text. -/
inductive Json where
  | null
  | bool (b : Bool)
  | number (lit : String)
  | string (s : String)
  | array (elems : List Json)
  | object (members : List (String × Json))

/-- Outcome of reading a piece of JSON from the front of the input: the piece and
the input after it, text that is not JSON, or the end of the input inside the
piece. -/
inductive Scan (α : Type) where
  | done (a : α) (rest : List Char)
  | invalid
  | truncated

/-- Go `json.isSpace`. -/
def json.isSpace (c : Char) : Bool :=
  c == ' ' || c == '\t' || c == '\r' || c == '\n'

/-- The input from its first character that is not white space. -/
def json.skipSpace : List Char → List Char
  | [] => []
  | c :: cs => if json.isSpace c then json.skipSpace cs else c :: cs

/-- The value of a hexadecimal digit. -/
def json.hexVal (c : Char) : Option Nat :=
  if c.isDigit then some (c.toNat - 48)
  else if 97 ≤ c.toNat ∧ c.toNat ≤ 102 then some (c.toNat - 87)
  else if 65 ≤ c.toNat ∧ c.toNat ≤ 70 then some (c.toNat - 55)
  else none

/-- Go `json.getu4`: the value of four hexadecimal digits. -/
def json.getu4 (a b c d : Char) : Option Nat :=
  match json.hexVal a, json.hexVal b, json.hexVal c, json.hexVal d with
  | some x, some y, some z, some w => some (((x * 16 + y) * 16 + z) * 16 + w)
  | _, _, _, _ => none

/-- Scanner states inside a string literal: plain, after a backslash, and with
`n + 1` hex digits of a `\u` escape still to come. -/
inductive json.StringState where
  | plain
  | escape
  | hex (n : Nat)

/-- The scanner inside a string literal (`stateInString` and its escape states):
the raw text up to the closing quote, escapes not yet decoded. -/
def json.scanString : json.StringState → List Char → List Char → Scan (List Char)
  | _, [], _ => .truncated
  | .plain, c :: rest, acc =>
    if c == '"' then .done acc.reverse rest
    else if c == '\\' then json.scanString .escape rest (c :: acc)
    else if c.toNat < 32 then .invalid
    else json.scanString .plain rest (c :: acc)
  | .escape, c :: rest, acc =>
    if c == 'b' || c == 'f' || c == 'n' || c == 'r' || c == 't' || c == '\\' || c == '/'
        || c == '"' then json.scanString .plain rest (c :: acc)
    else if c == 'u' then json.scanString (.hex 3) rest (c :: acc)
    else .invalid
  | .hex n, c :: rest, acc =>
    if (json.hexVal c).isSome then
      match n with
      | 0 => json.scanString .plain rest (c :: acc)
      | m + 1 => json.scanString (.hex m) rest (c :: acc)
    else .invalid

/-- Go `utf16.DecodeRune` on a surrogate pair, `none` when it is not one. -/
def json.decodeRune (r1 r2 : Nat) : Option Nat :=
  if 0xd800 ≤ r1 ∧ r1 < 0xdc00 ∧ 0xdc00 ≤ r2 ∧ r2 < 0xe000 then
    some ((r1 - 0xd800) * 1024 + (r2 - 0xdc00) + 0x10000)
  else none

/-- The replacement character for a surrogate escape left without its pair. -/
def json.flush (pending : Option Nat) : List Char :=
  match pending with
  | some _ => [Char.ofNat 0xfffd]
  | none => []

/-- Go `json.unquote` on the raw text of a scanned string literal. `pending` is a
surrogate escape just read: it joins a following low surrogate escape into one
character and is otherwise replaced by U+FFFD. -/
def json.unquote : Option Nat → List Char → List Char
  | pending, [] => json.flush pending
  | pending, '\\' :: 'u' :: a :: b :: c :: d :: rest =>
    match json.getu4 a b c d with
    | none => json.flush pending
    | some r =>
      match pending.bind (fun r1 => json.decodeRune r1 r) with
      | some dec => Char.ofNat dec :: json.unquote none rest
      | none =>
        if 0xd800 ≤ r ∧ r < 0xe000 then json.flush pending ++ json.unquote (some r) rest
        else json.flush pending ++ Char.ofNat r :: json.unquote none rest
  | pending, '\\' :: e :: rest =>
    json.flush pending ++
      (if e == 'b' then Char.ofNat 8 else if e == 'f' then Char.ofNat 12
        else if e == 'n' then '\n' else if e == 'r' then '\r' else if e == 't' then '\t'
        else e) :: json.unquote none rest
  | pending, c :: rest => json.flush pending ++ c :: json.unquote none rest


/-- Scanner states inside a number literal. -/
inductive json.NumberState where
  | neg | zero | int | dot | frac | exp | expSign | expDigits

/-- The state can end a number. -/
def json.NumberState.final : json.NumberState → Bool
  | .zero | .int | .frac | .expDigits => true
  | _ => false

/-- One scanner step inside a number: the next state, or `none` when the character
does not continue the number. -/
def json.numberStep : json.NumberState → Char → Option json.NumberState
  | .neg, c => if c == '0' then some .zero else if c.isDigit then some .int else none
  | .zero, c => if c == '.' then some .dot else if c == 'e' || c == 'E' then some .exp else none
  | .int, c =>
    if c.isDigit then some .int else if c == '.' then some .dot
    else if c == 'e' || c == 'E' then some .exp else none
  | .dot, c => if c.isDigit then some .frac else none
  | .frac, c =>
    if c.isDigit then some .frac else if c == 'e' || c == 'E' then some .exp else none
  | .exp, c =>
    if c == '+' || c == '-' then some .expSign else if c.isDigit then some .expDigits else none
  | .expSign, c => if c.isDigit then some .expDigits else none
  | .expDigits, c => if c.isDigit then some .expDigits else none

/-- The scanner over a number literal: its text and the input from the first
character that does not continue it. -/
def json.scanNumber : json.NumberState → List Char → List Char → Scan String
  | st, [], acc => if st.final then .done (String.mk acc.reverse) [] else .truncated
  | st, c :: rest, acc =>
    match json.numberStep st c with
    | some st1 => json.scanNumber st1 rest (c :: acc)
    | none => if st.final then .done (String.mk acc.reverse) (c :: rest) else .invalid

/-- The scanner over the rest of a literal `true`, `false` or `null`. -/
def json.scanLiteral (v : Json) : List Char → List Char → Scan Json
  | [], rest => .done v rest
  | _ :: _, [] => .truncated
  | e :: es, c :: rest => if c == e then json.scanLiteral v es rest else .invalid

/-- Go `json.maxNestingDepth`. -/
def json.maxNestingDepth : Nat := 10000

mutual
/-- One JSON value from the front of the input, leading white space skipped. The
first argument is fuel for the recursion into arrays and objects; `depth` counts
the enclosing arrays and objects. -/
def json.scanValue : Nat → Nat → List Char → Scan Json
  | 0, _, _ => .invalid
  | fuel + 1, depth, cs =>
    match json.skipSpace cs with
    | [] => .truncated
    | c :: rest =>
      if c == '{' then
        if depth + 1 ≤ json.maxNestingDepth then
          match json.skipSpace rest with
          | [] => .truncated
          | c1 :: rest1 =>
            if c1 == '}' then .done (.object []) rest1
            else json.scanMembers fuel (depth + 1) (c1 :: rest1) []
        else .invalid
      else if c == '[' then
        if depth + 1 ≤ json.maxNestingDepth then
          match json.skipSpace rest with
          | [] => .truncated
          | c1 :: rest1 =>
            if c1 == ']' then .done (.array []) rest1
            else json.scanElems fuel (depth + 1) (c1 :: rest1) []
        else .invalid
      else if c == '"' then
        match json.scanString .plain rest [] with
        | .done raw rest1 => .done (.string (String.mk (json.unquote none raw))) rest1
        | .invalid => .invalid
        | .truncated => .truncated
      else if c == '-' then
        match json.scanNumber .neg rest [c] with
        | .done lit rest1 => .done (.number lit) rest1
        | .invalid => .invalid
        | .truncated => .truncated
      else if c == '0' then
        match json.scanNumber .zero rest [c] with
        | .done lit rest1 => .done (.number lit) rest1
        | .invalid => .invalid
        | .truncated => .truncated
      else if c.isDigit then
        match json.scanNumber .int rest [c] with
        | .done lit rest1 => .done (.number lit) rest1
        | .invalid => .invalid
        | .truncated => .truncated
      else if c == 't' then json.scanLiteral (.bool true) ['r', 'u', 'e'] rest
      else if c == 'f' then json.scanLiteral (.bool false) ['a', 'l', 's', 'e'] rest
      else if c == 'n' then json.scanLiteral .null ['u', 'l', 'l'] rest
      else .invalid

/-- The elements of an array from its next element on, up to the closing bracket. -/
def json.scanElems : Nat → Nat → List Char → List Json → Scan Json
  | 0, _, _, _ => .invalid
  | fuel + 1, depth, cs, acc =>
    match json.scanValue fuel depth cs with
    | .done v rest =>
      match json.skipSpace rest with
      | [] => .truncated
      | c :: rest1 =>
        if c == ',' then json.scanElems fuel depth rest1 (v :: acc)
        else if c == ']' then .done (.array (v :: acc).reverse) rest1
        else .invalid
    | .invalid => .invalid
    | .truncated => .truncated

/-- The members of an object from its next key on, up to the closing brace. -/
def json.scanMembers : Nat → Nat → List Char → List (String × Json) → Scan Json
  | 0, _, _, _ => .invalid
  | fuel + 1, depth, cs, acc =>
    match json.skipSpace cs with
    | [] => .truncated
    | q :: rest =>
      if q == '"' then
        match json.scanString .plain rest [] with
        | .done raw rest1 =>
          match json.skipSpace rest1 with
          | [] => .truncated
          | c :: rest2 =>
            if c == ':' then
              match json.scanValue fuel depth rest2 with
              | .done v rest3 =>
                match json.skipSpace rest3 with
                | [] => .truncated
                | c1 :: rest4 =>
                  if c1 == ',' then
                    json.scanMembers fuel depth rest4 ((String.mk (json.unquote none raw), v) :: acc)
                  else if c1 == '}' then
                    .done (.object ((String.mk (json.unquote none raw), v) :: acc).reverse) rest4
                  else .invalid
              | .invalid => .invalid
              | .truncated => .truncated
            else .invalid
        | .invalid => .invalid
        | .truncated => .truncated
      else .invalid
end

/-! ## encoding/json: decoding into `OpenShiftUser` -/

/-- The fold of one character of a key: ASCII letters to upper case, and the two
other characters that fold onto ASCII letters (long s and the Kelvin sign). -/
def json.foldChar (c : Char) : Char :=
  if c.isLower then c.toUpper
  else if c.toNat = 0x17f then 'S'
  else if c.toNat = 0x212a then 'K'
  else c

/-- Go `json.foldName`, as far as it matters for comparing with an ASCII name. -/
def json.foldName (s : String) : List Char :=
  s.toList.map json.foldChar

/-- An object key selects the struct field with the given JSON name: the names are
equal, or equal under case folding. -/
def json.keyMatches (field key : String) : Bool :=
  key == field || json.foldName key == json.foldName field

/-- Decoding one member of the `metadata` object into the `Metadata` struct. The
flag records a saved type error. -/
def json.decodeMetadataMember (st : OpenShiftUserMetadata × Bool) (m : String × Json) :
    OpenShiftUserMetadata × Bool :=
  if json.keyMatches "name" m.1 then
    match m.2 with
    | .string s => ({ Name := s }, st.2)
    | .null => st
    | _ => (st.1, true)
  else st

/-- Decoding a JSON value into the `Metadata` struct. -/
def json.decodeMetadata (st : OpenShiftUserMetadata × Bool) (v : Json) :
    OpenShiftUserMetadata × Bool :=
  match v with
  | .object members => members.foldl json.decodeMetadataMember st
  | .null => st
  | _ => (st.1, true)

/-- Decoding one array element into a `string`: the value and whether it is a type
error. -/
def json.decodeElem : Json → String × Bool
  | .string s => (s, false)
  | .null => ("", false)
  | _ => ("", true)

/-- Decoding a JSON value into the `Groups` slice: an array replaces the slice,
`null` empties it. -/
def json.decodeGroups (st : List String × Bool) (v : Json) : List String × Bool :=
  match v with
  | .array elems =>
    (elems.map fun e => (json.decodeElem e).1, st.2 || elems.any fun e => (json.decodeElem e).2)
  | .null => ([], st.2)
  | _ => (st.1, true)

/-- Decoding one member of the top-level object into `OpenShiftUser`, by the
`json:"metadata"` and `json:"groups"` tags; other keys are skipped. -/
def json.decodeUserMember (st : OpenShiftUser × Bool) (m : String × Json) :
    OpenShiftUser × Bool :=
  if json.keyMatches "metadata" m.1 then
    ({ st.1 with Metadata := (json.decodeMetadata (st.1.Metadata, st.2) m.2).1 },
      (json.decodeMetadata (st.1.Metadata, st.2) m.2).2)
  else if json.keyMatches "groups" m.1 then
    ({ st.1 with Groups := (json.decodeGroups (st.1.Groups, st.2) m.2).1 },
      (json.decodeGroups (st.1.Groups, st.2) m.2).2)
  else st

/-- The zero value of `OpenShiftUser`, as `var user OpenShiftUser` makes it. -/
def OpenShiftUser.zero : OpenShiftUser :=
  { Metadata := { Name := "" }, Groups := [] }

/-- Go `Unmarshal` of a scanned value into a zero `OpenShiftUser`: `none` when a
type error was saved. -/
def json.decodeUser : Json → Option OpenShiftUser
  | .object members =>
    if (members.foldl json.decodeUserMember (OpenShiftUser.zero, false)).2 then none
    else some (members.foldl json.decodeUserMember (OpenShiftUser.zero, false)).1
  | .null => some OpenShiftUser.zero
  | _ => none

/-- The first JSON value of a body. The fuel, twice the length of the body plus
two, does not run out: `scanBody_fuel` shows that more fuel gives the same
result. -/
def json.scanBody (body : String) : Scan Json :=
  json.scanValue (2 * body.length + 2) 0 body.toList

/-- The value is an array or an object, which the decoder knows to be complete at
its closing bracket. -/
def Json.isContainer : Json → Bool
  | .array _ => true
  | .object _ => true
  | _ => false

/-- Go `json.NewDecoder(resp.Body).Decode(&user)` on a zero `user`: the first JSON
value of the stream is scanned and decoded, what follows it is not looked at. When
the bytes end before the value is known to be complete, a read error is returned
as it is and a clean end gives `io.EOF` or `io.ErrUnexpectedEOF`. -/
def json.Decode (env : Env) (body : String) (readErr : Option GoError) :
    Except GoError OpenShiftUser :=
  match json.scanBody body with
  | .done v rest =>
    match (if rest.isEmpty && !v.isContainer then readErr else none) with
    | some err => .error err
    | none =>
      match json.decodeUser v with
      | some user => .ok user
      | none => .error (env.jsonError .typeMismatch body)
  | .invalid => .error (env.jsonError .invalidText body)
  | .truncated =>
    match readErr with
    | some err => .error err
    | none =>
      if body.toList.all json.isSpace then .error (env.jsonError .eof body)
      else .error (env.jsonError .unexpectedEOF body)

/-! ## The program -/

/-- Go `getUserGroups` (main.go, lines 74-100), with the trace of what it did. The
deferred `resp.Body.Close()` leaves no event; `io.ReadAll`, whose error is
dropped, yields the bytes `resp.Body`. -/
def getUserGroups (env : Env) (apiURL token : String) :
    Except GoError (List String) × List Event :=
  match http.NewRequest env "GET" (apiURL ++ "/apis/user.openshift.io/v1/users/~") none with
  | .error err => (.error err, [.enter apiURL token])
  | .ok req0 =>
    let req := { req0 with Header := req0.Header.Set "Authorization" ("Bearer " ++ token) }
    match env.Do req with
    | .error err => (.error err, [.enter apiURL token, .apiCall req])
    | .ok resp =>
      if resp.StatusCode ≠ 200 then
        let body := resp.Body
        (.error (errors.New
            ("API returned status " ++ toString resp.StatusCode ++ ": " ++ body)),
          [.enter apiURL token, .apiCall req])
      else
        match json.Decode env resp.Body resp.BodyErr with
        | .error err => (.error err, [.enter apiURL token, .apiCall req])
        | .ok user => (.ok user.Groups, [.enter apiURL token, .apiCall req])

/-- The handler closure registered on "/" in `main` (main.go, lines 50-69): the
response written to `w` and the trace of the run. -/
def handler (env : Env) (openshiftAPIURL : String) (r : Request) : Response × List Event :=
  let accessToken := r.Header.Get "X-Forwarded-Access-Token"
  let (r1, t) : Request × List Event :=
    if accessToken ≠ "" then
      match getUserGroups env openshiftAPIURL accessToken with
      | (.error err, t) => (r, t ++ [.log ("Error fetching user groups: " ++ err.Error)])
      | (.ok groups, t) =>
        if groups.length > 0 then
          let groupsHeader := strings.Join groups ","
          ({ r with Header := r.Header.Set "X-Forwarded-Groups" groupsHeader },
            t ++ [.log ("Injected groups: " ++ groupsHeader)])
        else (r, t)
    else (r, [])
  (env.ServeHTTP r1, t ++ [.forward r1])

/-- Go `getEnv` (main.go, lines 102-107) over the looked-up value of the variable. -/
def getEnv (osGetenv : String → String) (key defaultValue : String) : String :=
  let value := osGetenv key
  if value ≠ "" then value else defaultValue

/-! ## Reading the trace -/

/-- The requests handed to `proxy.ServeHTTP`, in order. -/
def forwardedRequests : List Event → List Request
  | [] => []
  | .forward r :: es => r :: forwardedRequests es
  | _ :: es => forwardedRequests es

/-- The requests sent through `client.Do`, in order. -/
def apiCalls : List Event → List Request
  | [] => []
  | .apiCall req :: es => req :: apiCalls es
  | _ :: es => apiCalls es

/-- The `(apiURL, token)` argument pairs of the calls of `getUserGroups`, in order. -/
def lookupCalls : List Event → List (String × String)
  | [] => []
  | .enter a t :: es => (a, t) :: lookupCalls es
  | _ :: es => lookupCalls es

/-- The request carries at least one `X-Forwarded-Groups` value. -/
def carriesGroups (r : Request) : Prop :=
  r.Header.Values "X-Forwarded-Groups" ≠ []

instance (r : Request) : Decidable (carriesGroups r) := by
  unfold carriesGroups; infer_instance

/-- The request `getUserGroups` passes to `client.Do`, when `http.NewRequest`
returned `req0`. -/
def withAuthorization (req0 : Request) (token : String) : Request :=
  { req0 with Header := req0.Header.Set "Authorization" ("Bearer " ++ token) }

/-- The URL `getUserGroups` asks for. -/
def usersURL (apiURL : String) : String :=
  apiURL ++ "/apis/user.openshift.io/v1/users/~"

/-- The request the handler hands on after a successful lookup with groups. -/
def withGroups (r : Request) (groups : List String) : Request :=
  { r with Header := r.Header.Set "X-Forwarded-Groups" (strings.Join groups ",") }

/-- The token value the handler reads from the inbound request. -/
def accessToken (r : Request) : String :=
  r.Header.Get "X-Forwarded-Access-Token"

/-- A token was supplied, the lookup with it succeeded and returned a non-empty
group list. -/
def lookupGaveGroups (env : Env) (apiURL : String) (r : Request) : Prop :=
  accessToken r ≠ "" ∧
    ∃ groups, (getUserGroups env apiURL (accessToken r)).1 = .ok groups ∧ groups ≠ []

/-- The invariant in the specification's wording: the single forwarded request
carries `X-Forwarded-Groups` if and only if `lookupGaveGroups` holds. -/
def GroupsHeaderIffLookup (env : Env) (apiURL : String) (r : Request) : Prop :=
  ∃ r1, forwardedRequests (handler env apiURL r).2 = [r1] ∧
    (carriesGroups r1 ↔ lookupGaveGroups env apiURL r)

/-! ## Sample collaborators and requests -/

/-- A header map holding exactly the listed keys. -/
def Header.ofList (kvs : List (String × List String)) : Header :=
  fun k => (kvs.find? fun kv => kv.1 == k).map Prod.snd

/-- JSON text of the characters of a string, with a backslash before each double
quote and backslash. -/
def json.escape : List Char → List Char
  | [] => []
  | c :: cs =>
    if c == '"' || c == '\\' then '\\' :: c :: json.escape cs else c :: json.escape cs

/-- JSON text of a string free of control characters. -/
def json.quote (s : String) : List Char :=
  '"' :: json.escape s.toList ++ ['"']

/-- JSON text of the elements of an array of strings. -/
def json.quoteAll : List String → List Char
  | [] => []
  | [g] => json.quote g
  | g :: gs => json.quote g ++ ',' :: json.quoteAll gs

/-- The JSON text of a user object with `metadata.name` and `groups`, without
white space. -/
def userText (name : String) (groups : List String) : List Char :=
  '\x7b' :: json.quote "metadata" ++ ':' :: '\x7b' :: json.quote "name" ++ ':' ::
    json.quote name ++ '\x7d' :: ',' :: json.quote "groups" ++ ':' :: '[' ::
    json.quoteAll groups ++ [']', '\x7d']

/-- The identity API's answer for a user with the given name and groups, as in the
specification's scenarios. -/
def userBody (name : String) (groups : List String) : String :=
  String.mk (userText name groups)

/-- The JSON value a user body stands for. -/
def userJson (name : String) (groups : List String) : Json :=
  .object [("metadata", .object [("name", .string name)]),
    ("groups", .array (groups.map Json.string))]

/-- No character of the string is a control character. -/
def NoControl (s : String) : Prop :=
  ∀ c ∈ s.toList, 32 ≤ c.toNat

/-- The shape the specification gives a successful answer: an object with exactly
one member selecting `metadata`, itself an object with exactly one member
selecting `name`, a string; and exactly one member selecting `groups`, an array of
the strings `groups`. Other members are free. -/
def HasNameAndGroups (v : Json) (name : String) (groups : List String) : Prop :=
  ∃ (ms mms : List (String × Json)) (k1 k2 k3 : String), v = .object ms ∧
    ms.filter (fun m => json.keyMatches "groups" m.1) = [(k1, .array (groups.map Json.string))] ∧
    ms.filter (fun m => json.keyMatches "metadata" m.1) = [(k2, .object mms)] ∧
    mms.filter (fun m => json.keyMatches "name" m.1) = [(k3, .string name)]

/-- Go `strconv.Quote` on text whose only characters needing an escape are the
double quote, the backslash, newline, carriage return and tab. -/
def sampleQuote (s : String) : String :=
  String.mk ('"' :: (s.toList.flatMap fun c =>
    if c == '"' then ['\\', '"'] else if c == '\\' then ['\\', '\\']
    else if c == '\n' then ['\\', 'n'] else if c == '\r' then ['\\', 'r']
    else if c == '\t' then ['\\', 't'] else [c]) ++ ['"'])

/-- A stand-in for `url.Parse` and printing, right on the URLs used below: text
with a control byte before any '#' is rejected with the `*url.Error` text of
`url.Parse`, and otherwise a scheme of letters before the first ':' is put in
lower case. -/
def sampleParseURL (url : String) : Except GoError String :=
  if (url.toList.takeWhile fun c => c != '#').any fun c => c.toNat < 32 || c.toNat == 127 then
    .error (errors.New
      ("parse " ++ sampleQuote url ++ ": net/url: invalid control character in URL"))
  else if (url.toList.dropWhile fun c => c != ':').isEmpty
      || (url.toList.takeWhile fun c => c != ':').isEmpty
      || !(url.toList.takeWhile fun c => c != ':').all Char.isAlpha then
    .ok url
  else
    .ok (String.mk ((url.toList.takeWhile fun c => c != ':').map Char.toLower ++
      url.toList.dropWhile fun c => c != ':'))

/-- Stand-in texts for the errors of `encoding/json`: the two `io` errors have
their Go text, the others a text naming the kind. -/
def sampleJsonError : json.Failure → String → GoError
  | .eof, _ => errors.New "EOF"
  | .unexpectedEOF, _ => errors.New "unexpected EOF"
  | .invalidText, _ => errors.New "invalid character in JSON text"
  | .typeMismatch, _ => errors.New "json: cannot unmarshal value into Go struct field"

/-- An identity API that answers every call with the given status and body, read
to a clean end; the proxy answers 200 "ok". -/
def sampleEnv (status : Int) (body : String) : Env where
  parseURL := sampleParseURL
  Do := fun _ =>
    .ok { StatusCode := status, Header := Header.empty, Body := body, BodyErr := none }
  jsonError := sampleJsonError
  ServeHTTP := fun _ =>
    { StatusCode := 200, Header := Header.empty, Body := "ok", BodyErr := none }

/-- A GET request for "/" with the given headers and an empty body. -/
def sampleRequest (kvs : List (String × List String)) : Request :=
  { Method := "GET", URL := "/", Header := Header.ofList kvs, Body := some "" }

/-- An inbound request with the given token and two stale values of the groups
header. -/
def tokenRequest (token : String) : Request :=
  sampleRequest [("X-Forwarded-Access-Token", [token]), ("Accept", ["text/html"]),
    ("X-Forwarded-Groups", ["old", "older"])]

/-- An inbound request with no token header that claims the group "admins". -/
def spoofedRequest : Request :=
  sampleRequest [("Accept", ["text/html"]), ("X-Forwarded-Groups", ["admins"])]

/-- What `http.NewRequest` returns for a GET with the given parsed URL and a nil
body. -/
def getRequest (url : String) : Request :=
  { Method := "GET", URL := url, Header := Header.empty, Body := none }


/-- The error of a connection that ended early, in the words of `client.Do` for a
lookup at "https://api". -/
def earlyEnd : GoError :=
  errors.New "Get \"https://api/apis/user.openshift.io/v1/users/~\": unexpected EOF"

/-- A client whose every call fails with `earlyEnd`. -/
def failingEnv : Env where
  parseURL := sampleParseURL
  Do := fun _ => .error earlyEnd
  jsonError := sampleJsonError
  ServeHTTP := fun _ =>
    { StatusCode := 200, Header := Header.empty, Body := "ok", BodyErr := none }

/-- A client that answers 200 and whose body reader fails with `earlyEnd` before
any byte. -/
def brokenBodyEnv : Env where
  parseURL := sampleParseURL
  Do := fun _ =>
    .ok { StatusCode := 200, Header := Header.empty, Body := "", BodyErr := some earlyEnd }
  jsonError := sampleJsonError
  ServeHTTP := fun _ =>
    { StatusCode := 200, Header := Header.empty, Body := "ok", BodyErr := none }

/-- A client that answers 200 and loses the connection after the first bytes of
the body: the body reader returns `io.ErrUnexpectedEOF` after them. -/
def cutBodyEnv : Env where
  parseURL := sampleParseURL
  Do := fun _ =>
    .ok { StatusCode := 200, Header := Header.empty, Body := "\x7b\"groups\":[\"admins\"",
          BodyErr := some (errors.New "unexpected EOF") }
  jsonError := sampleJsonError
  ServeHTTP := fun _ =>
    { StatusCode := 200, Header := Header.empty, Body := "ok", BodyErr := none }

/-- A user answer with white space, `groups` before `metadata`, two members the
struct does not have, and text after the object:
`{ "groups" : ["dev", "Dev", "dev", "admins"], "kind":"User",
"metadata":{"name":"alice","uid":7} } end`. -/
def spacedBody : String :=
  "\x7b \"groups\" : [\"dev\", \"Dev\", \"dev\", \"admins\"], \"kind\":\"User\",\n\"metadata\":\x7b\"name\":\"alice\",\"uid\":7\x7d \x7d end"

/-- The JSON value of `spacedBody`. -/
def spacedJson : Json :=
  .object [("groups", .array [.string "dev", .string "Dev", .string "dev", .string "admins"]),
    ("kind", .string "User"),
    ("metadata", .object [("name", .string "alice"), ("uid", .number "7")])]

/-! ## Helper lemmas -/

theorem forwardedRequests_append (t u : List Event) :
    forwardedRequests (t ++ u) = forwardedRequests t ++ forwardedRequests u := by
  induction t with
  | nil => rfl
  | cons e es ih => cases e <;> simp [forwardedRequests, ih]

theorem apiCalls_append (t u : List Event) :
    apiCalls (t ++ u) = apiCalls t ++ apiCalls u := by
  induction t with
  | nil => rfl
  | cons e es ih => cases e <;> simp [apiCalls, ih]

theorem lookupCalls_append (t u : List Event) :
    lookupCalls (t ++ u) = lookupCalls t ++ lookupCalls u := by
  induction t with
  | nil => rfl
  | cons e es ih => cases e <;> simp [lookupCalls, ih]

theorem getUserGroups_request_error (env : Env) (apiURL token : String) (err : GoError)
    (h : http.NewRequest env "GET" (usersURL apiURL) none = .error err) :
    getUserGroups env apiURL token = (.error err, [.enter apiURL token]) := by
  unfold usersURL at h
  simp [getUserGroups, h]

theorem getUserGroups_transport_error (env : Env) (apiURL token : String) (err : GoError) (req0 : Request)
    (h : http.NewRequest env "GET" (usersURL apiURL) none = .ok req0)
    (hdo : env.Do (withAuthorization req0 token) = .error err) :
    getUserGroups env apiURL token =
      (.error err, [.enter apiURL token, .apiCall (withAuthorization req0 token)]) := by
  unfold usersURL at h
  unfold withAuthorization at hdo
  simp [getUserGroups, h, hdo, withAuthorization]

theorem getUserGroups_status_error (env : Env) (apiURL token : String) (req0 : Request)
    (resp : Response)
    (h : http.NewRequest env "GET" (usersURL apiURL) none = .ok req0)
    (hdo : env.Do (withAuthorization req0 token) = .ok resp)
    (hs : resp.StatusCode ≠ 200) :
    getUserGroups env apiURL token =
      (.error (errors.New
          ("API returned status " ++ toString resp.StatusCode ++ ": " ++ resp.Body)),
        [.enter apiURL token, .apiCall (withAuthorization req0 token)]) := by
  unfold usersURL at h
  unfold withAuthorization at hdo
  simp [getUserGroups, h, hdo, hs, withAuthorization]

theorem getUserGroups_decode_error (env : Env) (apiURL token : String) (err : GoError) (req0 : Request)
    (resp : Response)
    (h : http.NewRequest env "GET" (usersURL apiURL) none = .ok req0)
    (hdo : env.Do (withAuthorization req0 token) = .ok resp)
    (hs : resp.StatusCode = 200)
    (hd : json.Decode env resp.Body resp.BodyErr = .error err) :
    getUserGroups env apiURL token =
      (.error err, [.enter apiURL token, .apiCall (withAuthorization req0 token)]) := by
  unfold usersURL at h
  unfold withAuthorization at hdo
  simp [getUserGroups, h, hdo, hs, hd, withAuthorization]

theorem getUserGroups_success (env : Env) (apiURL token : String) (req0 : Request)
    (resp : Response) (user : OpenShiftUser)
    (h : http.NewRequest env "GET" (usersURL apiURL) none = .ok req0)
    (hdo : env.Do (withAuthorization req0 token) = .ok resp)
    (hs : resp.StatusCode = 200)
    (hd : json.Decode env resp.Body resp.BodyErr = .ok user) :
    getUserGroups env apiURL token =
      (.ok user.Groups, [.enter apiURL token, .apiCall (withAuthorization req0 token)]) := by
  unfold usersURL at h
  unfold withAuthorization at hdo
  simp [getUserGroups, h, hdo, hs, hd, withAuthorization]

/-- The trace of `getUserGroups` is its entry mark followed by at most one call of
`client.Do`, made exactly when `http.NewRequest` succeeded. -/
theorem getUserGroups_trace (env : Env) (apiURL token : String) :
    (getUserGroups env apiURL token).2 =
      match http.NewRequest env "GET" (usersURL apiURL) none with
      | .error _ => [.enter apiURL token]
      | .ok req0 => [.enter apiURL token, .apiCall (withAuthorization req0 token)] := by
  cases h : http.NewRequest env "GET" (usersURL apiURL) none with
  | error err => rw [getUserGroups_request_error env apiURL token err h]
  | ok req0 =>
    cases hdo : env.Do (withAuthorization req0 token) with
    | error err => rw [getUserGroups_transport_error env apiURL token err req0 h hdo]
    | ok resp =>
      by_cases hs : resp.StatusCode = 200
      · cases hd : json.Decode env resp.Body resp.BodyErr with
        | error err => rw [getUserGroups_decode_error env apiURL token err req0 resp h hdo hs hd]
        | ok user => rw [getUserGroups_success env apiURL token req0 resp user h hdo hs hd]
      · rw [getUserGroups_status_error env apiURL token req0 resp h hdo hs]

theorem getUserGroups_forwarded (env : Env) (apiURL token : String) :
    forwardedRequests (getUserGroups env apiURL token).2 = [] := by
  rw [getUserGroups_trace]
  cases http.NewRequest env "GET" (usersURL apiURL) none <;> rfl

theorem getUserGroups_lookupCalls (env : Env) (apiURL token : String) :
    lookupCalls (getUserGroups env apiURL token).2 = [(apiURL, token)] := by
  rw [getUserGroups_trace]
  cases http.NewRequest env "GET" (usersURL apiURL) none <;> rfl

theorem handler_no_token (env : Env) (apiURL : String) (r : Request)
    (h : r.Header.Get "X-Forwarded-Access-Token" = "") :
    handler env apiURL r = (env.ServeHTTP r, [.forward r]) := by
  simp [handler, h]

theorem handler_lookup_error (env : Env) (apiURL : String) (r : Request) (err : GoError)
    (h : r.Header.Get "X-Forwarded-Access-Token" ≠ "")
    (hl : (getUserGroups env apiURL (r.Header.Get "X-Forwarded-Access-Token")).1 = .error err) :
    handler env apiURL r =
      (env.ServeHTTP r,
        (getUserGroups env apiURL (r.Header.Get "X-Forwarded-Access-Token")).2 ++
          [.log ("Error fetching user groups: " ++ err.Error)] ++ [.forward r]) := by
  unfold handler
  simp only [h, ne_eq, not_false_eq_true, if_true]
  generalize getUserGroups env apiURL (r.Header.Get "X-Forwarded-Access-Token") = res at hl
  obtain ⟨res1, t⟩ := res
  simp only at hl
  subst hl
  rfl

theorem handler_lookup_empty (env : Env) (apiURL : String) (r : Request)
    (h : r.Header.Get "X-Forwarded-Access-Token" ≠ "")
    (hl : (getUserGroups env apiURL (r.Header.Get "X-Forwarded-Access-Token")).1 = .ok []) :
    handler env apiURL r =
      (env.ServeHTTP r,
        (getUserGroups env apiURL (r.Header.Get "X-Forwarded-Access-Token")).2 ++
          [.forward r]) := by
  unfold handler
  simp only [h, ne_eq, not_false_eq_true, if_true]
  generalize getUserGroups env apiURL (r.Header.Get "X-Forwarded-Access-Token") = res at hl
  obtain ⟨res1, t⟩ := res
  simp only at hl
  subst hl
  rfl

theorem handler_lookup_groups (env : Env) (apiURL : String) (r : Request)
    (groups : List String)
    (h : r.Header.Get "X-Forwarded-Access-Token" ≠ "")
    (hl : (getUserGroups env apiURL (r.Header.Get "X-Forwarded-Access-Token")).1 = .ok groups)
    (hg : groups ≠ []) :
    handler env apiURL r =
      (env.ServeHTTP (withGroups r groups),
        (getUserGroups env apiURL (r.Header.Get "X-Forwarded-Access-Token")).2 ++
          [.log ("Injected groups: " ++ strings.Join groups ",")] ++
          [.forward (withGroups r groups)]) := by
  unfold handler
  simp only [h, ne_eq, not_false_eq_true, if_true]
  generalize getUserGroups env apiURL (r.Header.Get "X-Forwarded-Access-Token") = res at hl
  obtain ⟨res1, t⟩ := res
  simp only at hl
  subst hl
  have hlen : groups.length > 0 := List.length_pos.mpr hg
  simp [hlen, withGroups]

theorem canonical_groups_key :
    CanonicalMIMEHeaderKey "X-Forwarded-Groups" = "X-Forwarded-Groups" := by decide

theorem canonical_authorization_key :
    CanonicalMIMEHeaderKey "Authorization" = "Authorization" := by decide

theorem joinLoop_eq_go (sep : String) (rest : List String) (b : String) :
    strings.joinLoop sep b rest = String.intercalate.go b sep rest := by
  induction rest generalizing b with
  | nil => rfl
  | cons s rest ih => simp [strings.joinLoop, String.intercalate.go, ih]

/-- Go `strings.Join` is the separator-interleaved concatenation. -/
theorem Join_eq_intercalate (elems : List String) (sep : String) :
    strings.Join elems sep = sep.intercalate elems := by
  match elems with
  | [] => rfl
  | [e] => rfl
  | e :: f :: rest => simp [strings.Join, String.intercalate, joinLoop_eq_go]

theorem withGroups_groups_key (r : Request) (groups : List String) :
    (withGroups r groups).Header "X-Forwarded-Groups" = some [strings.Join groups ","] := by
  simp [withGroups, Header.Set, canonical_groups_key]

theorem withGroups_other_key (r : Request) (groups : List String) (k : String)
    (hk : k ≠ "X-Forwarded-Groups") :
    (withGroups r groups).Header k = r.Header k := by
  simp [withGroups, Header.Set, canonical_groups_key, hk]

theorem withGroups_carries (r : Request) (groups : List String) :
    carriesGroups (withGroups r groups) := by
  simp [carriesGroups, Header.Values, canonical_groups_key, withGroups_groups_key]

/-- The handler forwards exactly one request: the inbound one, with the groups
header set when the lookup gave groups. -/
theorem handler_forwarded (env : Env) (apiURL : String) (r : Request) :
    (accessToken r = "" ∧ handler env apiURL r = (env.ServeHTTP r, [.forward r])) ∨
    (accessToken r ≠ "" ∧
      ((∃ err, (getUserGroups env apiURL (accessToken r)).1 = .error err) ∨
        (getUserGroups env apiURL (accessToken r)).1 = .ok []) ∧
      (handler env apiURL r).1 = env.ServeHTTP r ∧
      forwardedRequests (handler env apiURL r).2 = [r]) ∨
    (accessToken r ≠ "" ∧
      ∃ groups, (getUserGroups env apiURL (accessToken r)).1 = .ok groups ∧ groups ≠ [] ∧
        (handler env apiURL r).1 = env.ServeHTTP (withGroups r groups) ∧
        forwardedRequests (handler env apiURL r).2 = [withGroups r groups]) := by
  by_cases htok : accessToken r = ""
  · exact Or.inl ⟨htok, handler_no_token env apiURL r htok⟩
  · right
    cases hl : (getUserGroups env apiURL (accessToken r)).1 with
    | error err =>
      left
      refine ⟨htok, Or.inl ⟨err, rfl⟩, ?_, ?_⟩
      · rw [handler_lookup_error env apiURL r err htok hl]
      · rw [handler_lookup_error env apiURL r err htok hl]
        simp [forwardedRequests_append, forwardedRequests]
        exact getUserGroups_forwarded env apiURL _
    | ok groups =>
      by_cases hg : groups = []
      · subst hg
        left
        refine ⟨htok, Or.inr rfl, ?_, ?_⟩
        · rw [handler_lookup_empty env apiURL r htok hl]
        · rw [handler_lookup_empty env apiURL r htok hl]
          simp [forwardedRequests_append, forwardedRequests]
          exact getUserGroups_forwarded env apiURL _
      · right
        refine ⟨htok, groups, rfl, hg, ?_, ?_⟩
        · rw [handler_lookup_groups env apiURL r groups htok hl hg]
        · rw [handler_lookup_groups env apiURL r groups htok hl hg]
          simp [forwardedRequests_append, forwardedRequests]
          exact getUserGroups_forwarded env apiURL _

/-! ## The scanner does not run out of fuel -/

theorem skipSpace_length (cs : List Char) : (json.skipSpace cs).length ≤ cs.length := by
  induction cs with
  | nil => simp [json.skipSpace]
  | cons c cs ih =>
    unfold json.skipSpace
    split
    · simp only [List.length_cons]; omega
    · exact Nat.le_refl _

theorem scanString_rest (st : json.StringState) (cs acc raw rest : List Char)
    (h : json.scanString st cs acc = .done raw rest) : rest.length + 1 ≤ cs.length := by
  induction cs generalizing st acc with
  | nil => cases st <;> simp [json.scanString] at h
  | cons c cs ih =>
    cases st with
    | plain =>
      simp only [json.scanString] at h
      split at h
      · cases h; simp
      · split at h
        · have := ih _ _ h; simp only [List.length_cons]; omega
        · split at h
          · cases h
          · have := ih _ _ h; simp only [List.length_cons]; omega
    | escape =>
      simp only [json.scanString] at h
      split at h
      · have := ih _ _ h; simp only [List.length_cons]; omega
      · split at h
        · have := ih _ _ h; simp only [List.length_cons]; omega
        · cases h
    | hex n =>
      simp only [json.scanString] at h
      split at h
      · cases n with
        | zero => have := ih _ _ h; simp only [List.length_cons]; omega
        | succ m => have := ih _ _ h; simp only [List.length_cons]; omega
      · cases h

theorem scanNumber_rest (st : json.NumberState) (cs acc : List Char) (lit : String)
    (rest : List Char) (h : json.scanNumber st cs acc = .done lit rest) :
    rest.length ≤ cs.length := by
  induction cs generalizing st acc with
  | nil =>
    simp only [json.scanNumber] at h
    split at h
    · cases h; simp
    · cases h
  | cons c cs ih =>
    simp only [json.scanNumber] at h
    split at h
    · have := ih _ _ h; simp only [List.length_cons]; omega
    · split at h
      · cases h; simp
      · cases h

theorem scanLiteral_rest (v v1 : Json) (es cs rest : List Char)
    (h : json.scanLiteral v es cs = .done v1 rest) : rest.length ≤ cs.length := by
  induction es generalizing cs with
  | nil => simp only [json.scanLiteral] at h; cases h; exact Nat.le_refl _
  | cons e es ih =>
    cases cs with
    | nil => simp [json.scanLiteral] at h
    | cons c cs =>
      simp only [json.scanLiteral] at h
      split at h
      · have := ih _ h; simp only [List.length_cons]; omega
      · cases h



theorem skipSpace_cons_length (l : List Char) (c : Char) (t : List Char)
    (h : json.skipSpace l = c :: t) : t.length + 1 ≤ l.length := by
  have := skipSpace_length l
  rw [h] at this
  exact this

/-- A scanned value, element list or member list leaves less input than it got. -/
theorem scan_rest (fuel : Nat) :
    (∀ depth cs v rest, json.scanValue fuel depth cs = .done v rest →
      rest.length + 1 ≤ cs.length) ∧
    (∀ depth cs acc v rest, json.scanElems fuel depth cs acc = .done v rest →
      rest.length + 1 ≤ cs.length) ∧
    (∀ depth cs acc v rest, json.scanMembers fuel depth cs acc = .done v rest →
      rest.length + 1 ≤ cs.length) := by
  induction fuel with
  | zero =>
    refine ⟨?_, ?_, ?_⟩ <;> intros <;> simp_all [json.scanValue, json.scanElems, json.scanMembers]
  | succ f ih =>
    obtain ⟨ihV, ihE, ihM⟩ := ih
    refine ⟨?_, ?_, ?_⟩
    · intro depth cs v rest h
      rw [json.scanValue] at h
      split at h
      · cases h
      · rename_i c rest0 hcs
        have hsk := skipSpace_cons_length _ _ _ hcs
        repeat' split at h
        all_goals try (cases h; done)
        all_goals first
          | (have h2 := skipSpace_cons_length _ _ _ ‹json.skipSpace rest0 = _›
             cases h
             omega)
          | (have h2 := skipSpace_cons_length _ _ _ ‹json.skipSpace rest0 = _›
             have h3 := ihM _ _ _ _ _ h
             simp only [List.length_cons] at h3
             omega)
          | (have h2 := skipSpace_cons_length _ _ _ ‹json.skipSpace rest0 = _›
             have h3 := ihE _ _ _ _ _ h
             simp only [List.length_cons] at h3
             omega)
          | (have h2 := scanString_rest _ _ _ _ _ ‹json.scanString _ _ _ = _›
             cases h
             omega)
          | (have h2 := scanNumber_rest _ _ _ _ _ ‹json.scanNumber _ _ _ = _›
             cases h
             omega)
          | (have h2 := scanLiteral_rest _ _ _ _ _ h
             omega)
    · intro depth cs acc v rest h
      rw [json.scanElems] at h
      repeat' split at h
      all_goals try (cases h; done)
      all_goals first
        | (have h1 := ihV _ _ _ _ ‹json.scanValue f _ _ = _›
           have h2 := skipSpace_cons_length _ _ _ ‹json.skipSpace _ = _›
           have h3 := ihE _ _ _ _ _ h
           omega)
        | (have h1 := ihV _ _ _ _ ‹json.scanValue f _ _ = _›
           have h2 := skipSpace_cons_length _ _ _ ‹json.skipSpace _ = _›
           cases h
           omega)
    · intro depth cs acc v rest h
      rw [json.scanMembers] at h
      repeat' split at h
      all_goals try (cases h; done)
      all_goals first
        | (rename_i x4 c2 cs2 hq0 hq x3 raw rest1 hS x2 c1 cs1 hk1 hc x1 v1 rest3 hV x0 c0 cs0 hk0
             hncomma hbrace
           have a1 := skipSpace_cons_length _ _ _ hq0
           have a2 := scanString_rest _ _ _ _ _ hS
           have a3 := skipSpace_cons_length _ _ _ hk1
           have a4 := ihV _ _ _ _ hV
           have a5 := skipSpace_cons_length _ _ _ hk0
           cases h
           omega)
        | (rename_i x4 c2 cs2 hq0 hq x3 raw rest1 hS x2 c1 cs1 hk1 hc x1 v1 rest3 hV x0 c0 cs0 hk0
             hcomma
           have a1 := skipSpace_cons_length _ _ _ hq0
           have a2 := scanString_rest _ _ _ _ _ hS
           have a3 := skipSpace_cons_length _ _ _ hk1
           have a4 := ihV _ _ _ _ hV
           have a5 := skipSpace_cons_length _ _ _ hk0
           have a6 := ihM _ _ _ _ _ h
           omega)



/-- With fuel of twice the input length plus one for a value, plus two for an
element or member list, one more unit of fuel changes nothing: the fuel does not
run out. -/
theorem scan_fuel_succ (fuel : Nat) :
    (∀ depth cs, 2 * cs.length + 1 ≤ fuel →
      json.scanValue (fuel + 1) depth cs = json.scanValue fuel depth cs) ∧
    (∀ depth cs acc, 2 * cs.length + 2 ≤ fuel →
      json.scanElems (fuel + 1) depth cs acc = json.scanElems fuel depth cs acc) ∧
    (∀ depth cs acc, 2 * cs.length + 2 ≤ fuel →
      json.scanMembers (fuel + 1) depth cs acc = json.scanMembers fuel depth cs acc) := by
  induction fuel with
  | zero => refine ⟨?_, ?_, ?_⟩ <;> intros <;> omega
  | succ f ih =>
    obtain ⟨ihV, ihE, ihM⟩ := ih
    refine ⟨?_, ?_, ?_⟩
    · intro depth cs hb
      rw [json.scanValue, json.scanValue]
      cases hcs : json.skipSpace cs with
      | nil => rfl
      | cons c rest0 =>
        have hsk := skipSpace_cons_length _ _ _ hcs
        simp only []
        by_cases hb1 : (c == '\x7b') = true
        · simp only [hb1, if_true]
          by_cases hd : depth + 1 ≤ json.maxNestingDepth
          · simp only [hd, if_true]
            cases hr : json.skipSpace rest0 with
            | nil => rfl
            | cons c1 rest1 =>
              have hsk1 := skipSpace_cons_length _ _ _ hr
              simp only []
              by_cases hc1 : (c1 == '\x7d') = true
              · simp only [hc1, if_true]
              · simp only [hc1, Bool.false_eq_true, if_false]
                exact ihM _ _ _ (by simp only [List.length_cons]; omega)
          · simp only [hd, Bool.false_eq_true, if_false]
        · simp only [hb1, Bool.false_eq_true, if_false]
          by_cases hb2 : (c == '[') = true
          · simp only [hb2, if_true]
            by_cases hd : depth + 1 ≤ json.maxNestingDepth
            · simp only [hd, if_true]
              cases hr : json.skipSpace rest0 with
              | nil => rfl
              | cons c1 rest1 =>
                have hsk1 := skipSpace_cons_length _ _ _ hr
                simp only []
                by_cases hc1 : (c1 == ']') = true
                · simp only [hc1, if_true]
                · simp only [hc1, Bool.false_eq_true, if_false]
                  exact ihE _ _ _ (by simp only [List.length_cons]; omega)
            · simp only [hd, Bool.false_eq_true, if_false]
          · simp only [hb2, Bool.false_eq_true, if_false]
    · intro depth cs acc hb
      rw [json.scanElems, json.scanElems]
      rw [ihV depth cs (by omega)]
      cases hv : json.scanValue f depth cs with
      | invalid => rfl
      | truncated => rfl
      | done v rest =>
        have hrest := (scan_rest f).1 _ _ _ _ hv
        simp only []
        cases hr : json.skipSpace rest with
        | nil => rfl
        | cons c1 rest1 =>
          have hsk1 := skipSpace_cons_length _ _ _ hr
          simp only []
          by_cases hc1 : (c1 == ',') = true
          · simp only [hc1, if_true]
            exact ihE _ _ _ (by omega)
          · simp only [hc1, Bool.false_eq_true, if_false]
    · intro depth cs acc hb
      rw [json.scanMembers, json.scanMembers]
      cases hcs : json.skipSpace cs with
      | nil => rfl
      | cons q rest0 =>
        have hsk := skipSpace_cons_length _ _ _ hcs
        simp only []
        by_cases hq : (q == '"') = true
        · simp only [hq, if_true]
          cases hs : json.scanString .plain rest0 [] with
          | invalid => rfl
          | truncated => rfl
          | done raw rest1 =>
            have hs1 := scanString_rest _ _ _ _ _ hs
            simp only []
            cases hr : json.skipSpace rest1 with
            | nil => rfl
            | cons c rest2 =>
              have hsk2 := skipSpace_cons_length _ _ _ hr
              simp only []
              by_cases hc : (c == ':') = true
              · simp only [hc, if_true]
                rw [ihV depth rest2 (by omega)]
                cases hv : json.scanValue f depth rest2 with
                | invalid => rfl
                | truncated => rfl
                | done v rest3 =>
                  have hrest := (scan_rest f).1 _ _ _ _ hv
                  simp only []
                  cases hr3 : json.skipSpace rest3 with
                  | nil => rfl
                  | cons c1 rest4 =>
                    have hsk4 := skipSpace_cons_length _ _ _ hr3
                    simp only []
                    by_cases hc1 : (c1 == ',') = true
                    · simp only [hc1, if_true]
                      exact ihM _ _ _ (by omega)
                    · simp only [hc1, Bool.false_eq_true, if_false]
              · simp only [hc, Bool.false_eq_true, if_false]
        · simp only [hq, Bool.false_eq_true, if_false]

theorem scanValue_fuel_add (depth : Nat) (cs : List Char) (k : Nat) :
    json.scanValue (2 * cs.length + 1 + k) depth cs =
      json.scanValue (2 * cs.length + 1) depth cs := by
  induction k with
  | zero => rfl
  | succ k ih =>
    rw [← ih]
    exact (scan_fuel_succ (2 * cs.length + 1 + k)).1 depth cs (by omega)

/-- The scan of a body with any greater fuel gives what `json.scanBody` gives. -/
theorem scanBody_fuel (body : String) (k : Nat) :
    json.scanValue (2 * body.length + 2 + k) 0 body.toList = json.scanBody body := by
  have h1 := scanValue_fuel_add 0 body.toList (1 + k)
  have h2 := scanValue_fuel_add 0 body.toList 1
  have hl : body.toList.length = body.length := rfl
  rw [hl] at h1 h2
  unfold json.scanBody
  rw [show 2 * body.length + 2 + k = 2 * body.length + 1 + (1 + k) by omega, h1,
    show 2 * body.length + 2 = 2 * body.length + 1 + 1 by omega, h2]

theorem keyMatches_iff (field key : String) :
    json.keyMatches field key = true ↔ json.foldName key = json.foldName field := by
  unfold json.keyMatches
  constructor
  · intro h
    rcases Bool.or_eq_true _ _ |>.mp h with h1 | h2
    · have : key = field := by simpa using h1
      rw [this]
    · simpa using h2
  · intro h
    simp [h]

theorem keyMatches_groups_not_metadata (key : String)
    (h : json.keyMatches "groups" key = true) : json.keyMatches "metadata" key = false := by
  rw [keyMatches_iff] at h
  cases hm : json.keyMatches "metadata" key with
  | false => rfl
  | true =>
    rw [keyMatches_iff] at hm
    rw [h] at hm
    exact absurd hm (by decide)

theorem decodeElem_strings (groups : List String) :
    ((groups.map Json.string).map fun e => (json.decodeElem e).1) = groups ∧
    ((groups.map Json.string).any fun e => (json.decodeElem e).2) = false := by
  induction groups with
  | nil => exact ⟨rfl, rfl⟩
  | cons g gs ih =>
    refine ⟨?_, ?_⟩
    · simp only [List.map_cons]
      rw [ih.1]
      rfl
    · simp only [List.map_cons, List.any_cons]
      rw [ih.2]
      rfl

/-- Members whose key does not select `Groups` leave the slice as it was. -/
theorem foldl_groups_unchanged (ms : List (String × Json)) (st : OpenShiftUser × Bool)
    (h : ∀ m ∈ ms, json.keyMatches "groups" m.1 = false) :
    (ms.foldl json.decodeUserMember st).1.Groups = st.1.Groups := by
  induction ms generalizing st with
  | nil => rfl
  | cons m ms ih =>
    rw [List.foldl_cons, ih _ (fun x hx => h x (List.mem_cons_of_mem _ hx))]
    unfold json.decodeUserMember
    have hm := h m (List.mem_cons_self _ _)
    by_cases h1 : json.keyMatches "metadata" m.1 = true
    · simp [h1]
    · simp [h1, hm]

/-- When exactly one member selects `Groups` and it is an array of strings, the
decoded slice holds those strings in order. -/
theorem foldl_groups (ms : List (String × Json)) (st : OpenShiftUser × Bool) (k : String)
    (groups : List String)
    (h : ms.filter (fun m => json.keyMatches "groups" m.1) =
      [(k, .array (groups.map Json.string))]) :
    (ms.foldl json.decodeUserMember st).1.Groups = groups := by
  induction ms generalizing st with
  | nil => simp at h
  | cons m ms ih =>
    rw [List.foldl_cons]
    by_cases hm : json.keyMatches "groups" m.1 = true
    · rw [List.filter_cons_of_pos (by simpa using hm)] at h
      have hmeq : m = (k, .array (groups.map Json.string)) := (List.cons.inj h).1
      have hrest : ms.filter (fun m => json.keyMatches "groups" m.1) = [] := (List.cons.inj h).2
      have hnone : ∀ x ∈ ms, json.keyMatches "groups" x.1 = false := by
        intro x hx
        have := (List.filter_eq_nil_iff.mp hrest) x hx
        simpa using this
      rw [foldl_groups_unchanged ms _ hnone]
      have hk : json.keyMatches "groups" k = true := by rw [hmeq] at hm; exact hm
      have hmd := keyMatches_groups_not_metadata k hk
      rw [hmeq]
      simp [json.decodeUserMember, hk, hmd, json.decodeGroups, (decodeElem_strings groups).1]
    · rw [List.filter_cons_of_neg (by simpa using hm)] at h
      exact ih _ h

/-- A fold whose every step keeps a clear flag clear ends with a clear flag. -/
theorem foldl_flag_clear {σ μ : Type} (step : σ × Bool → μ → σ × Bool) (ms : List μ)
    (st : σ × Bool) (hst : st.2 = false)
    (h : ∀ m ∈ ms, ∀ st1 : σ × Bool, st1.2 = false → (step st1 m).2 = false) :
    (ms.foldl step st).2 = false := by
  induction ms generalizing st with
  | nil => exact hst
  | cons m ms ih =>
    rw [List.foldl_cons]
    exact ih _ (h m (List.mem_cons_self _ _) st hst)
      (fun x hx => h x (List.mem_cons_of_mem _ hx))

theorem decodeUser_of_shape (v : Json) (name : String) (groups : List String)
    (h : HasNameAndGroups v name groups) :
    ∃ user, json.decodeUser v = some user ∧ user.Groups = groups := by
  obtain ⟨ms, mms, k1, k2, k3, hv, hg, hm, hn⟩ := h
  subst hv
  have hflag : (ms.foldl json.decodeUserMember (OpenShiftUser.zero, false)).2 = false := by
    apply foldl_flag_clear _ _ _ rfl
    intro m hmem st1 hst1
    unfold json.decodeUserMember
    by_cases h1 : json.keyMatches "metadata" m.1 = true
    · have hmm : m ∈ ms.filter (fun m => json.keyMatches "metadata" m.1) :=
        List.mem_filter.mpr ⟨hmem, by simpa using h1⟩
      rw [hm, List.mem_singleton] at hmm
      simp only [h1, if_true]
      rw [hmm]
      simp only [json.decodeMetadata]
      apply foldl_flag_clear json.decodeMetadataMember mms (st1.1.Metadata, st1.2) hst1
      intro mm hmmem st2 hst2
      unfold json.decodeMetadataMember
      by_cases h2 : json.keyMatches "name" mm.1 = true
      · have hmn : mm ∈ mms.filter (fun m => json.keyMatches "name" m.1) :=
          List.mem_filter.mpr ⟨hmmem, by simpa using h2⟩
        rw [hn, List.mem_singleton] at hmn
        rw [hmn] at h2 ⊢
        simp [h2, hst2]
      · simp [h2, hst2]
    · by_cases h3 : json.keyMatches "groups" m.1 = true
      · have hmg : m ∈ ms.filter (fun m => json.keyMatches "groups" m.1) :=
          List.mem_filter.mpr ⟨hmem, by simpa using h3⟩
        rw [hg, List.mem_singleton] at hmg
        rw [hmg] at h1 h3 ⊢
        simp [h1, h3, json.decodeGroups, hst1, (decodeElem_strings groups).2]
      · simp [h1, h3, hst1]
  refine ⟨(ms.foldl json.decodeUserMember (OpenShiftUser.zero, false)).1, ?_, ?_⟩
  · simp [json.decodeUser, hflag]
  · exact foldl_groups ms _ k1 groups hg

theorem Decode_of_shape (env : Env) (body : String) (readErr : Option GoError) (v : Json)
    (rest : List Char) (name : String) (groups : List String)
    (hscan : json.scanBody body = .done v rest)
    (h : HasNameAndGroups v name groups) :
    ∃ user, json.Decode env body readErr = .ok user ∧ user.Groups = groups := by
  obtain ⟨user, hdec, hgr⟩ := decodeUser_of_shape v name groups h
  refine ⟨user, ?_, hgr⟩
  obtain ⟨ms, _, _, _, _, hv, _⟩ := h
  subst hv
  simp [json.Decode, hscan, Json.isContainer, hdec]

theorem scanString_escape (cs : List Char) (h : ∀ c ∈ cs, 32 ≤ c.toNat) (acc rest : List Char) :
    json.scanString .plain (json.escape cs ++ '"' :: rest) acc =
      .done (acc.reverse ++ json.escape cs) rest := by
  induction cs generalizing acc with
  | nil => simp [json.escape, json.scanString]
  | cons c cs ih =>
    have hc : 32 ≤ c.toNat := h c (List.mem_cons_self _ _)
    have hcs : ∀ x ∈ cs, 32 ≤ x.toNat := fun x hx => h x (List.mem_cons_of_mem _ hx)
    by_cases hq : c = '"'
    · subst hq
      simp [json.escape, json.scanString, ih hcs]
    · by_cases hb : c = '\\'
      · subst hb
        simp [json.escape, json.scanString, ih hcs]
      · have hlt : ¬ c.toNat < 32 := by omega
        simp [json.escape, json.scanString, hq, hb, hlt, ih hcs]

theorem unquote_escape (cs : List Char) : json.unquote none (json.escape cs) = cs := by
  induction cs with
  | nil => simp [json.escape, json.unquote, json.flush]
  | cons c cs ih =>
    by_cases hq : c = '"'
    · subst hq
      simp [json.escape, json.unquote, json.flush, ih]
    · by_cases hb : c = '\\'
      · subst hb
        simp [json.escape, json.unquote, json.flush, ih]
      · have hcond : (c == '"' || c == '\\') = false := by simp [hq, hb]
        simp only [json.escape, hcond, Bool.false_eq_true, if_false]
        rw [json.unquote.eq_4 none c _ (fun _ _ _ _ _ h1 _ => hb h1) (fun _ _ h1 _ => hb h1)]
        simp [json.flush, ih]

theorem scanValue_quote (fuel depth : Nat) (s : String) (rest : List Char) (h : NoControl s) :
    json.scanValue (fuel + 1) depth (json.quote s ++ rest) = .done (.string s) rest := by
  have hq : json.quote s ++ rest = '"' :: (json.escape s.toList ++ '"' :: rest) := by
    simp [json.quote]
  have e := scanString_escape s.toList h [] rest
  simp only [String.toList] at e
  rw [hq, json.scanValue]
  simp [json.skipSpace, json.isSpace, e, unquote_escape]

theorem quoteAll_cons_cons (g g1 : String) (gs : List String) :
    json.quoteAll (g :: g1 :: gs) = json.quote g ++ ',' :: json.quoteAll (g1 :: gs) := rfl

/-- The scanner reads the text of a non-empty array of strings back. -/
theorem scanElems_quoteAll (groups : List String) (h : ∀ g ∈ groups, NoControl g)
    (hne : groups ≠ []) (fuel depth : Nat) (acc : List Json) (rest : List Char) :
    json.scanElems (groups.length + (fuel + 1)) depth (json.quoteAll groups ++ ']' :: rest) acc =
      .done (.array (acc.reverse ++ groups.map Json.string)) rest := by
  induction groups generalizing acc with
  | nil => exact absurd rfl hne
  | cons g gs ih =>
    have hg : NoControl g := h g (List.mem_cons_self _ _)
    cases gs with
    | nil =>
      have hf : [g].length + (fuel + 1) = (fuel + 1) + 1 := by simp; omega
      rw [hf, json.scanElems]
      have hq : json.quoteAll [g] ++ ']' :: rest = json.quote g ++ ']' :: rest := rfl
      rw [hq, scanValue_quote fuel depth g _ hg]
      simp [json.skipSpace, json.isSpace]
    | cons g1 gs1 =>
      have hf : (g :: g1 :: gs1).length + (fuel + 1) = ((g1 :: gs1).length + fuel + 1) + 1 := by
        simp; omega
      rw [hf, json.scanElems, quoteAll_cons_cons]
      have hq : json.quote g ++ ',' :: json.quoteAll (g1 :: gs1) ++ ']' :: rest =
          json.quote g ++ (',' :: (json.quoteAll (g1 :: gs1) ++ ']' :: rest)) := by simp
      rw [hq, scanValue_quote _ depth g _ hg]
      have := ih (fun x hx => h x (List.mem_cons_of_mem _ hx)) (by simp) (.string g :: acc)
      simp only [json.skipSpace, json.isSpace]
      simp only [show ((',' : Char) == ' ' || (',' : Char) == '\t' || (',' : Char) == '\r'
        || (',' : Char) == '\n') = false by decide, Bool.false_eq_true, if_false,
        beq_self_eq_true, if_true]
      rw [show (g1 :: gs1).length + fuel + 1 = (g1 :: gs1).length + (fuel + 1) by omega, this]
      simp

theorem skipSpace_quote (s : String) (rest : List Char) :
    json.skipSpace (json.quote s ++ rest) = json.quote s ++ rest := by
  simp [json.quote, json.skipSpace, json.isSpace]

/-- One member of an object: the key is read back, and the scan goes on after the
member's value. -/
theorem scanMembers_member (fuel depth : Nat) (key : String) (hkey : NoControl key)
    (rest2 rest3 : List Char) (v : Json) (c1 : Char) (rest4 : List Char)
    (acc : List (String × Json))
    (hv : json.scanValue fuel depth rest2 = .done v rest3)
    (hnext : json.skipSpace rest3 = c1 :: rest4) :
    json.scanMembers (fuel + 1) depth (json.quote key ++ ':' :: rest2) acc =
      if c1 == ',' then json.scanMembers fuel depth rest4 ((key, v) :: acc)
      else if c1 == '\x7d' then .done (.object ((key, v) :: acc).reverse) rest4
      else .invalid := by
  have e := scanString_escape key.toList hkey [] (':' :: rest2)
  simp only [String.toList] at e
  have hq : json.quote key ++ ':' :: rest2 =
      '"' :: (json.escape key.data ++ '"' :: ':' :: rest2) := by
    simp [json.quote]
  rw [hq, json.scanMembers]
  simp only [json.skipSpace, json.isSpace]
  simp [e, unquote_escape, json.skipSpace, json.isSpace, hv, hnext]

theorem noControl_keys : NoControl "metadata" ∧ NoControl "name" ∧ NoControl "groups" := by
  refine ⟨?_, ?_, ?_⟩ <;> (unfold NoControl; decide)

theorem quoteAll_head (g : String) (gs : List String) :
    ∃ t, json.quoteAll (g :: gs) = '"' :: t := by
  cases gs with
  | nil => exact ⟨_, rfl⟩
  | cons g1 gs1 => exact ⟨_, rfl⟩

theorem scanValue_bracket (fuel depth : Nat) (hd : depth + 1 ≤ json.maxNestingDepth)
    (t : List Char) :
    json.scanValue (fuel + 1) depth ('[' :: '"' :: t) =
      json.scanElems fuel (depth + 1) ('"' :: t) [] := by
  rw [json.scanValue]
  simp [json.skipSpace, json.isSpace, hd]

theorem scanValue_brace (fuel depth : Nat) (hd : depth + 1 ≤ json.maxNestingDepth)
    (t : List Char) :
    json.scanValue (fuel + 1) depth ('\x7b' :: '"' :: t) =
      json.scanMembers fuel (depth + 1) ('"' :: t) [] := by
  rw [json.scanValue]
  simp [json.skipSpace, json.isSpace, hd]

theorem scanValue_array (groups : List String) (h : ∀ g ∈ groups, NoControl g)
    (fuel depth : Nat) (hd : depth + 1 ≤ json.maxNestingDepth) (rest : List Char) :
    json.scanValue (groups.length + (fuel + 1) + 1) depth
        ('[' :: (json.quoteAll groups ++ ']' :: rest)) =
      .done (.array (groups.map Json.string)) rest := by
  cases groups with
  | nil =>
    rw [json.scanValue]
    simp [json.skipSpace, json.isSpace, json.quoteAll, hd]
  | cons g gs =>
    obtain ⟨t, ht⟩ := quoteAll_head g gs
    have e := scanElems_quoteAll (g :: gs) h (by simp) fuel (depth + 1) [] rest
    rw [ht] at e ⊢
    rw [List.cons_append, scanValue_bracket _ _ hd, ← List.cons_append, e]
    simp

theorem skipSpace_closeBrace (t : List Char) :
    json.skipSpace ('\x7d' :: t) = '\x7d' :: t := by
  simp [json.skipSpace, json.isSpace]

theorem skipSpace_comma (t : List Char) : json.skipSpace (',' :: t) = ',' :: t := by
  simp [json.skipSpace, json.isSpace]

theorem scanValue_userText (name : String) (groups : List String) (hname : NoControl name)
    (hgroups : ∀ g ∈ groups, NoControl g) (f : Nat) :
    json.scanValue (groups.length + (f + 1) + 1 + 1 + 1 + 1) 0 (userText name groups) =
      .done (userJson name groups) [] := by
  obtain ⟨hk1, hk2, hk3⟩ := noControl_keys
  have hd1 : 0 + 1 ≤ json.maxNestingDepth := by decide
  have hd2 : 1 + 1 ≤ json.maxNestingDepth := by decide
  -- the inner `metadata` object
  have hname1 : json.scanValue (groups.length + (f + 1)) 2
      (json.quote name ++ '\x7d' :: ',' :: (json.quote "groups" ++ ':' ::
        ('[' :: (json.quoteAll groups ++ ']' :: ['\x7d'])))) =
      .done (.string name) ('\x7d' :: ',' :: (json.quote "groups" ++ ':' ::
        ('[' :: (json.quoteAll groups ++ ']' :: ['\x7d'])))) := by
    rw [show groups.length + (f + 1) = (groups.length + f) + 1 by omega]
    exact scanValue_quote _ _ name _ hname
  have hmeta : json.scanValue (groups.length + (f + 1) + 1 + 1) 1
      ('\x7b' :: (json.quote "name" ++ ':' :: (json.quote name ++ '\x7d' :: ',' ::
        (json.quote "groups" ++ ':' :: ('[' :: (json.quoteAll groups ++ ']' :: ['\x7d'])))))) =
      .done (.object [("name", .string name)]) (',' :: (json.quote "groups" ++ ':' ::
        ('[' :: (json.quoteAll groups ++ ']' :: ['\x7d'])))) := by
    have hq : json.quote "name" = '"' :: (json.escape "name".toList ++ ['"']) := rfl
    rw [hq, List.cons_append, scanValue_brace _ _ hd2, ← List.cons_append, ← hq]
    rw [scanMembers_member _ _ "name" hk2 _ _ _ '\x7d' _ [] hname1 (skipSpace_closeBrace _)]
    simp
  have harr := scanValue_array groups hgroups f 1 hd2 ['\x7d']
  have hq : json.quote "metadata" = '"' :: (json.escape "metadata".toList ++ ['"']) := rfl
  have htext : userText name groups = '\x7b' :: (json.quote "metadata" ++ ':' ::
      ('\x7b' :: (json.quote "name" ++ ':' :: (json.quote name ++ '\x7d' :: ',' ::
        (json.quote "groups" ++ ':' :: ('[' :: (json.quoteAll groups ++ ']' :: ['\x7d']))))))) := by
    simp [userText]
  rw [htext, hq, List.cons_append, scanValue_brace _ _ hd1, ← List.cons_append, ← hq]
  rw [scanMembers_member _ _ "metadata" hk1 _ _ _ ',' _ [] hmeta (skipSpace_comma _)]
  simp only [beq_self_eq_true, if_true]
  rw [scanMembers_member _ _ "groups" hk3 _ _ _ '\x7d' _ _ harr (skipSpace_closeBrace _)]
  simp [userJson]

theorem quoteAll_length (groups : List String) :
    groups.length ≤ (json.quoteAll groups).length := by
  induction groups with
  | nil => simp [json.quoteAll]
  | cons g gs ih =>
    cases gs with
    | nil => simp [json.quoteAll, json.quote]
    | cons g1 gs1 =>
      rw [quoteAll_cons_cons]
      simp only [List.length_append, List.length_cons] at ih ⊢
      omega

/-- The scanner reads a rendered user body back as the value it stands for. -/
theorem scanBody_userBody (name : String) (groups : List String) (hname : NoControl name)
    (hgroups : ∀ g ∈ groups, NoControl g) :
    json.scanBody (userBody name groups) = .done (userJson name groups) [] := by
  have hlen : groups.length + 5 ≤ (userText name groups).length := by
    have := quoteAll_length groups
    simp only [userText, List.length_append, List.length_cons]
    omega
  obtain ⟨f, hf⟩ : ∃ f, 2 * (userText name groups).length + 2 =
      groups.length + (f + 1) + 1 + 1 + 1 + 1 :=
    ⟨2 * (userText name groups).length + 2 - groups.length - 5, by omega⟩
  have := scanValue_userText name groups hname hgroups f
  unfold json.scanBody userBody
  simp only [String.length, String.toList]
  rw [hf]
  exact this

theorem userJson_shape (name : String) (groups : List String) :
    HasNameAndGroups (userJson name groups) name groups := by
  have h1 : json.keyMatches "groups" "metadata" = false := by decide
  have h2 : json.keyMatches "groups" "groups" = true := by decide
  have h3 : json.keyMatches "metadata" "metadata" = true := by decide
  have h4 : json.keyMatches "metadata" "groups" = false := by decide
  have h5 : json.keyMatches "name" "name" = true := by decide
  exact ⟨_, [("name", .string name)], "groups", "metadata", "name", rfl,
    by simp [List.filter, h1, h2], by simp [List.filter, h3, h4], by simp [List.filter, h5]⟩

/-! ## The handler -/

/-- C1, as stated, fails. The inbound request carries `X-Forwarded-Groups: admins`
and no token header: the handler makes no lookup and forwards the request with
that groups header still on it, so the header is present although no token was
supplied. -/
theorem groups_header_survives_without_token :
    accessToken spoofedRequest = "" ∧
    (forwardedRequests (handler (sampleEnv 200 (userBody "alice" ["dev"])) "https://api" spoofedRequest).2).map
      (fun r1 => r1.Header.Values "X-Forwarded-Groups") = [["admins"]] ∧
    ¬ GroupsHeaderIffLookup (sampleEnv 200 (userBody "alice" ["dev"])) "https://api" spoofedRequest := by
  refine ⟨by decide, by decide, ?_⟩
  rintro ⟨r1, hfwd, hiff⟩
  have htok : accessToken spoofedRequest = "" := by decide
  rw [handler_no_token _ _ _ htok] at hfwd
  simp only [forwardedRequests, List.cons.injEq, and_true] at hfwd
  subst hfwd
  have hc : carriesGroups spoofedRequest := by decide
  exact (hiff.mp hc).1 htok

/-- C1, amended: the handler forwards exactly one request, and it carries an
`X-Forwarded-Groups` header if and only if the lookup gave groups (token
non-empty, lookup succeeded, group list non-empty) or the inbound request already
carried one; with an empty or absent token the forwarded request carries the
header exactly when the inbound request did. -/
theorem groups_header_iff_lookup_or_inbound (env : Env) (apiURL : String) (r : Request) :
    ∃ r1, forwardedRequests (handler env apiURL r).2 = [r1] ∧
      (carriesGroups r1 ↔ (lookupGaveGroups env apiURL r ∨ carriesGroups r)) ∧
      (accessToken r = "" → (carriesGroups r1 ↔ carriesGroups r)) := by
  rcases handler_forwarded env apiURL r with ⟨htok, h⟩ | ⟨htok, hl, _, hfwd⟩ |
    ⟨htok, groups, hl, hg, _, hfwd⟩
  · refine ⟨r, by rw [h]; rfl, ?_, fun _ => Iff.rfl⟩
    constructor
    · exact fun hc => Or.inr hc
    · rintro (⟨hne, _⟩ | hc)
      · exact absurd htok hne
      · exact hc
  · refine ⟨r, hfwd, ?_, fun h0 => absurd h0 htok⟩
    constructor
    · exact fun hc => Or.inr hc
    · rintro (⟨_, groups, hok, hne⟩ | hc)
      · rcases hl with ⟨err, herr⟩ | hempty
        · rw [herr] at hok; cases hok
        · rw [hempty] at hok
          cases hok
          exact absurd rfl hne
      · exact hc
  · refine ⟨withGroups r groups, hfwd, ?_, fun h0 => absurd h0 htok⟩
    constructor
    · exact fun _ => Or.inl ⟨htok, groups, hl, hg⟩
    · exact fun _ => withGroups_carries r groups

/-- C2: with a non-empty token and a lookup that succeeds with the non-empty list
`groups`, the one forwarded request has `X-Forwarded-Groups` bound to the single
value `groups` joined with ",", every other header key bound as on the inbound
request, and the same method, URL and body. -/
theorem forwarded_headers_after_lookup (env : Env) (apiURL : String) (r : Request)
    (groups : List String)
    (htok : accessToken r ≠ "")
    (hl : (getUserGroups env apiURL (accessToken r)).1 = .ok groups)
    (hg : groups ≠ []) :
    ∃ r1, forwardedRequests (handler env apiURL r).2 = [r1] ∧
      r1.Header "X-Forwarded-Groups" = some [",".intercalate groups] ∧
      (∀ k, k ≠ "X-Forwarded-Groups" → r1.Header k = r.Header k) ∧
      r1.Method = r.Method ∧ r1.URL = r.URL ∧ r1.Body = r.Body := by
  refine ⟨withGroups r groups, ?_, ?_, ?_, rfl, rfl, rfl⟩
  · rw [handler_lookup_groups env apiURL r groups htok hl hg]
    simp [forwardedRequests_append, forwardedRequests]
    exact getUserGroups_forwarded env apiURL _
  · rw [withGroups_groups_key, Join_eq_intercalate]
  · exact fun k hk => withGroups_other_key r groups k hk

/-- Scenario A, with two stale values of the groups header on the inbound request:
token "tok-valid", lookup result ["admins", "dev"], forwarded value "admins,dev". -/
theorem forwarded_headers_after_lookup_witness :
    accessToken (tokenRequest "tok-valid") ≠ "" ∧
    (getUserGroups (sampleEnv 200 (userBody "alice" ["admins", "dev"])) "https://api"
      (accessToken (tokenRequest "tok-valid"))).1 = .ok ["admins", "dev"] ∧
    ∃ r1, forwardedRequests (handler (sampleEnv 200 (userBody "alice" ["admins", "dev"])) "https://api"
        (tokenRequest "tok-valid")).2 = [r1] ∧
      r1.Header "X-Forwarded-Groups" = some ["admins,dev"] ∧
      (∀ k, k ≠ "X-Forwarded-Groups" → r1.Header k = (tokenRequest "tok-valid").Header k) ∧
      r1.Method = "GET" ∧ r1.URL = "/" ∧ r1.Body = some "" :=
  ⟨by decide, by decide,
    forwarded_headers_after_lookup (sampleEnv 200 (userBody "alice" ["admins", "dev"])) "https://api"
      (tokenRequest "tok-valid") ["admins", "dev"] (by decide) (by decide) (by decide)⟩

/-- C3: when the token is absent or empty, or the lookup returns an error, or it
succeeds with an empty group list, the one request handed to the forwarder is the
inbound request itself, so its header map equals the inbound header map. -/
theorem forwarded_unchanged_without_groups (env : Env) (apiURL : String) (r : Request)
    (h : accessToken r = "" ∨
      (∃ err, (getUserGroups env apiURL (accessToken r)).1 = .error err) ∨
      (getUserGroups env apiURL (accessToken r)).1 = .ok []) :
    ∃ r1, forwardedRequests (handler env apiURL r).2 = [r1] ∧
      r1.Header = r.Header ∧ r1 = r := by
  rcases handler_forwarded env apiURL r with ⟨_, h0⟩ | ⟨_, _, _, hfwd⟩ |
    ⟨htok, groups, hl, hg, _, _⟩
  · exact ⟨r, by rw [h0]; rfl, rfl, rfl⟩
  · exact ⟨r, hfwd, rfl, rfl⟩
  · rcases h with h0 | ⟨err, herr⟩ | hempty
    · exact absurd h0 htok
    · rw [herr] at hl; cases hl
    · rw [hempty] at hl
      cases hl
      exact absurd rfl hg

/-- Scenario B: token "tok-novalid", the API answers 401 "unauthorized". -/
theorem forwarded_unchanged_without_groups_witness :
    (getUserGroups (sampleEnv 401 "unauthorized") "https://api"
      (accessToken (tokenRequest "tok-novalid"))).1
      = .error (errors.New "API returned status 401: unauthorized") ∧
    ∃ r1, forwardedRequests (handler (sampleEnv 401 "unauthorized") "https://api"
        (tokenRequest "tok-novalid")).2 = [r1] ∧
      r1.Header = (tokenRequest "tok-novalid").Header ∧ r1 = tokenRequest "tok-novalid" :=
  ⟨by decide,
    forwarded_unchanged_without_groups (sampleEnv 401 "unauthorized") "https://api"
      (tokenRequest "tok-novalid")
      (Or.inr (Or.inl ⟨errors.New "API returned status 401: unauthorized", by decide⟩))⟩

/-- C4: for every request and every lookup outcome the handler hands exactly one
request to the forwarder and its response is the forwarder's response to that
request; when the lookup fails (request construction, transport, status or decode
error) that response is the forwarder's response to the unmodified inbound
request. -/
theorem handler_fail_open (env : Env) (apiURL : String) (r : Request) :
    ∃ r1, forwardedRequests (handler env apiURL r).2 = [r1] ∧
      (handler env apiURL r).1 = env.ServeHTTP r1 ∧
      (∀ err, (getUserGroups env apiURL (accessToken r)).1 = .error err →
        r1 = r ∧ (handler env apiURL r).1 = env.ServeHTTP r) := by
  rcases handler_forwarded env apiURL r with ⟨_, h0⟩ | ⟨_, _, hresp, hfwd⟩ |
    ⟨_, groups, hl, _, hresp, hfwd⟩
  · exact ⟨r, by rw [h0]; rfl, by rw [h0], fun _ _ => ⟨rfl, by rw [h0]⟩⟩
  · exact ⟨r, hfwd, hresp, fun _ _ => ⟨rfl, hresp⟩⟩
  · refine ⟨withGroups r groups, hfwd, hresp, fun err herr => ?_⟩
    rw [herr] at hl
    cases hl

/-! ## The identity lookup -/

/-- C5, as stated, fails: a transport failure and an undecodable body can surface
as the same error, because `getUserGroups` returns the error of `client.Do` and
the error of the decoder as they are. (1) A client whose call fails with
`earlyEnd`, and a client that answers 200 and whose body reader fails with
`earlyEnd` before any byte (the decoder hands a read error on unchanged), make the
two lookups return equal errors. (2) A 200 answer whose connection is lost inside
the body, and a 200 answer whose complete body stops inside its JSON text, both
make the lookup return the error "unexpected EOF". -/
theorem transport_and_decode_errors_coincide :
    failingEnv.Do (withAuthorization
        (getRequest "https://api/apis/user.openshift.io/v1/users/~") "tok-valid")
      = .error earlyEnd ∧
    json.Decode brokenBodyEnv "" (some earlyEnd) = .error earlyEnd ∧
    (getUserGroups failingEnv "https://api" "tok-valid").1 = .error earlyEnd ∧
    (getUserGroups brokenBodyEnv "https://api" "tok-valid").1 = .error earlyEnd ∧
    (getUserGroups cutBodyEnv "https://api" "tok-valid").1
      = .error (errors.New "unexpected EOF") ∧
    (getUserGroups (sampleEnv 200 "\x7b\"groups\":[\"admins\"") "https://api" "tok-valid").1
      = .error (errors.New "unexpected EOF") := by
  refine ⟨rfl, rfl, ?_, ?_, ?_, ?_⟩ <;> decide

/-- C5, amended: `getUserGroups` returns a group list exactly when the request was
built, `client.Do` returned a response, its status is 200 and its body decodes.
Each of the three failures gives an error and no group list: a transport failure
the error `client.Do` returned, unchanged; a status other than 200 a new error
with the text "API returned status <status>: <body>"; an undecodable body the error
the decoder returned, unchanged. -/
theorem getUserGroups_ok_iff (env : Env) (apiURL token : String) :
    ((∃ groups, (getUserGroups env apiURL token).1 = .ok groups) ↔
      ∃ req0 resp user,
        http.NewRequest env "GET" (apiURL ++ "/apis/user.openshift.io/v1/users/~") none
          = .ok req0 ∧
        env.Do (withAuthorization req0 token) = .ok resp ∧
        resp.StatusCode = 200 ∧ json.Decode env resp.Body resp.BodyErr = .ok user) ∧
    (∀ req0 err,
      http.NewRequest env "GET" (apiURL ++ "/apis/user.openshift.io/v1/users/~") none
        = .ok req0 →
      env.Do (withAuthorization req0 token) = .error err →
      (getUserGroups env apiURL token).1 = .error err) ∧
    (∀ req0 resp,
      http.NewRequest env "GET" (apiURL ++ "/apis/user.openshift.io/v1/users/~") none
        = .ok req0 →
      env.Do (withAuthorization req0 token) = .ok resp → resp.StatusCode ≠ 200 →
      (getUserGroups env apiURL token).1 = .error (errors.New
        ("API returned status " ++ toString resp.StatusCode ++ ": " ++ resp.Body))) ∧
    (∀ req0 resp err,
      http.NewRequest env "GET" (apiURL ++ "/apis/user.openshift.io/v1/users/~") none
        = .ok req0 →
      env.Do (withAuthorization req0 token) = .ok resp → resp.StatusCode = 200 →
      json.Decode env resp.Body resp.BodyErr = .error err →
      (getUserGroups env apiURL token).1 = .error err) := by
  refine ⟨⟨?_, ?_⟩, ?_, ?_, ?_⟩
  · rintro ⟨groups, hok⟩
    cases h : http.NewRequest env "GET" (usersURL apiURL) none with
    | error err =>
      rw [getUserGroups_request_error env apiURL token err h] at hok
      cases hok
    | ok req0 =>
      cases hdo : env.Do (withAuthorization req0 token) with
      | error err =>
        rw [getUserGroups_transport_error env apiURL token err req0 h hdo] at hok
        cases hok
      | ok resp =>
        by_cases hs : resp.StatusCode = 200
        · cases hd : json.Decode env resp.Body resp.BodyErr with
          | error err =>
            rw [getUserGroups_decode_error env apiURL token err req0 resp h hdo hs hd] at hok
            cases hok
          | ok user => exact ⟨req0, resp, user, h, hdo, hs, hd⟩
        · rw [getUserGroups_status_error env apiURL token req0 resp h hdo hs] at hok
          cases hok
  · rintro ⟨req0, resp, user, h, hdo, hs, hd⟩
    exact ⟨user.Groups, by rw [getUserGroups_success env apiURL token req0 resp user h hdo hs hd]⟩
  · intro req0 err h hdo
    rw [getUserGroups_transport_error env apiURL token err req0 h hdo]
  · intro req0 resp h hdo hs
    rw [getUserGroups_status_error env apiURL token req0 resp h hdo hs]
  · intro req0 resp err h hdo hs hd
    rw [getUserGroups_decode_error env apiURL token err req0 resp h hdo hs hd]

/-- The three failures on sample clients: a failed call, a 503 answer, a 200 answer
with a body cut off inside its JSON text. -/
theorem getUserGroups_ok_iff_witness :
    (getUserGroups failingEnv "https://api" "tok-valid").1 = .error earlyEnd ∧
    (getUserGroups (sampleEnv 503 "busy") "https://api" "tok-valid").1
      = .error (errors.New "API returned status 503: busy") ∧
    (getUserGroups (sampleEnv 200 "\x7b\"groups\":[\"admins\"") "https://api" "tok-valid").1
      = .error (errors.New "unexpected EOF") :=
  ⟨(getUserGroups_ok_iff failingEnv "https://api" "tok-valid").2.1
      (getRequest "https://api/apis/user.openshift.io/v1/users/~") earlyEnd rfl rfl,
    (getUserGroups_ok_iff (sampleEnv 503 "busy") "https://api" "tok-valid").2.2.1
      (getRequest "https://api/apis/user.openshift.io/v1/users/~")
      { StatusCode := 503, Header := Header.empty, Body := "busy", BodyErr := none }
      rfl rfl (by decide),
    (getUserGroups_ok_iff (sampleEnv 200 "\x7b\"groups\":[\"admins\"") "https://api"
        "tok-valid").2.2.2
      (getRequest "https://api/apis/user.openshift.io/v1/users/~")
      { StatusCode := 200, Header := Header.empty, Body := "\x7b\"groups\":[\"admins\"",
        BodyErr := none }
      (errors.New "unexpected EOF") rfl rfl rfl rfl⟩

/-- C6: when the response has a status other than 200, whatever its body and
whatever the decoder would make of that body, `getUserGroups` returns no groups
and the new error whose text is "API returned status ", the status in decimal,
": " and the body. -/
theorem getUserGroups_status_message (env : Env) (apiURL token : String) (req0 : Request)
    (resp : Response)
    (h : http.NewRequest env "GET" (apiURL ++ "/apis/user.openshift.io/v1/users/~") none
      = .ok req0)
    (hdo : env.Do (withAuthorization req0 token) = .ok resp)
    (hs : resp.StatusCode ≠ 200) :
    ∃ err, (getUserGroups env apiURL token).1 = .error err ∧
      err = errors.New
        ("API returned status " ++ toString resp.StatusCode ++ ": " ++ resp.Body) ∧
      err.Error = "API returned status " ++ toString resp.StatusCode ++ ": " ++ resp.Body := by
  refine ⟨_, ?_, rfl, rfl⟩
  rw [getUserGroups_status_error env apiURL token req0 resp h hdo hs]

/-- Status 401 with a body that is a well-formed user object, which the decoder
accepts under status 200: the lookup still fails, with the status and the body in
the error text. -/
theorem getUserGroups_status_message_witness :
    http.NewRequest (sampleEnv 401 (userBody "alice" ["admins"])) "GET"
      ("https://api" ++ "/apis/user.openshift.io/v1/users/~") none
      = .ok (getRequest "https://api/apis/user.openshift.io/v1/users/~") ∧
    (401 : Int) ≠ 200 ∧
    (getUserGroups (sampleEnv 200 (userBody "alice" ["admins"])) "https://api"
      "tok-novalid").1 = .ok ["admins"] ∧
    ∃ err, (getUserGroups (sampleEnv 401 (userBody "alice" ["admins"])) "https://api"
        "tok-novalid").1 = .error err ∧
      err = errors.New
        "API returned status 401: \x7b\"metadata\":\x7b\"name\":\"alice\"\x7d,\"groups\":[\"admins\"]\x7d" ∧
      err.Error =
        "API returned status 401: \x7b\"metadata\":\x7b\"name\":\"alice\"\x7d,\"groups\":[\"admins\"]\x7d" :=
  ⟨rfl, by decide, by decide,
    getUserGroups_status_message (sampleEnv 401 (userBody "alice" ["admins"])) "https://api"
      "tok-novalid" (getRequest "https://api/apis/user.openshift.io/v1/users/~")
      { StatusCode := 401, Header := Header.empty, Body := userBody "alice" ["admins"],
        BodyErr := none }
      rfl rfl (by decide)⟩

/-- C7: when the request is built and the response has status 200, `getUserGroups`
returns exactly `groups`, with no error, (1) for every body whose first JSON value
is an object with one `metadata` member holding one `name` string and one `groups`
member that is the array of the strings `groups`, whatever else the object holds
and whatever the name is; and (2) for the JSON text of such an object written out
for any name and any list `groups` free of control characters. The list comes
back as it stands in the body: same length, same order, duplicates and case
kept. -/
theorem getUserGroups_returns_groups (env : Env) (apiURL token : String) (req0 : Request)
    (h : http.NewRequest env "GET" (apiURL ++ "/apis/user.openshift.io/v1/users/~") none
      = .ok req0) :
    (∀ (resp : Response) (v : Json) (rest : List Char) (name : String) (groups : List String),
      env.Do (withAuthorization req0 token) = .ok resp → resp.StatusCode = 200 →
      json.scanBody resp.Body = .done v rest → HasNameAndGroups v name groups →
      (getUserGroups env apiURL token).1 = .ok groups) ∧
    (∀ (resp : Response) (name : String) (groups : List String),
      env.Do (withAuthorization req0 token) = .ok resp → resp.StatusCode = 200 →
      resp.Body = userBody name groups → NoControl name → (∀ g ∈ groups, NoControl g) →
      (getUserGroups env apiURL token).1 = .ok groups) := by
  have key : ∀ (resp : Response) (v : Json) (rest : List Char) (name : String)
      (groups : List String),
      env.Do (withAuthorization req0 token) = .ok resp → resp.StatusCode = 200 →
      json.scanBody resp.Body = .done v rest → HasNameAndGroups v name groups →
      (getUserGroups env apiURL token).1 = .ok groups := by
    intro resp v rest name groups hdo hs hscan hshape
    obtain ⟨user, hdec, hgr⟩ :=
      Decode_of_shape env resp.Body resp.BodyErr v rest name groups hscan hshape
    rw [getUserGroups_success env apiURL token req0 resp user h hdo hs hdec, hgr]
  refine ⟨key, ?_⟩
  intro resp name groups hdo hs hbody hname hgroups
  refine key resp (userJson name groups) [] name groups hdo hs ?_ (userJson_shape name groups)
  rw [hbody]
  exact scanBody_userBody name groups hname hgroups

/-- A 200 answer with white space, the members in another order, members the
struct does not have, duplicate and differently cased groups, and text after the
object: the groups come back as written. -/
theorem getUserGroups_returns_groups_witness :
    http.NewRequest (sampleEnv 200 spacedBody) "GET"
      ("https://api" ++ "/apis/user.openshift.io/v1/users/~") none
      = .ok (getRequest "https://api/apis/user.openshift.io/v1/users/~") ∧
    json.scanBody spacedBody = .done spacedJson [' ', 'e', 'n', 'd'] ∧
    (getUserGroups (sampleEnv 200 spacedBody) "https://api" "tok-valid").1
      = .ok ["dev", "Dev", "dev", "admins"] ∧
    (getUserGroups (sampleEnv 200 (userBody "alice" ["admins", "dev"])) "https://api"
      "tok-valid").1 = .ok ["admins", "dev"] :=
  ⟨rfl, rfl,
    (getUserGroups_returns_groups (sampleEnv 200 spacedBody) "https://api" "tok-valid"
      (getRequest "https://api/apis/user.openshift.io/v1/users/~") rfl).1
      { StatusCode := 200, Header := Header.empty, Body := spacedBody, BodyErr := none }
      spacedJson [' ', 'e', 'n', 'd'] "alice" ["dev", "Dev", "dev", "admins"] rfl rfl rfl
      ⟨_, [("name", .string "alice"), ("uid", .number "7")], "groups", "metadata", "name",
        rfl, rfl, rfl, rfl⟩,
    by decide⟩

/-- C8: the handler calls `getUserGroups` no times when the token value is empty
or absent and exactly once, with the configured API address and that token value,
when it is non-empty; no call has an empty token, and `client.Do` is called at
most once, never when the token is empty. -/
theorem lookup_called_iff_token (env : Env) (apiURL : String) (r : Request) :
    lookupCalls (handler env apiURL r).2 =
      (if accessToken r = "" then [] else [(apiURL, accessToken r)]) ∧
    (∀ c ∈ lookupCalls (handler env apiURL r).2, c.2 ≠ "") ∧
    (apiCalls (handler env apiURL r).2).length ≤ 1 ∧
    (accessToken r = "" → apiCalls (handler env apiURL r).2 = []) := by
  have key : lookupCalls (handler env apiURL r).2 =
      (if accessToken r = "" then [] else [(apiURL, accessToken r)]) ∧
      (apiCalls (handler env apiURL r).2).length ≤ 1 ∧
      (accessToken r = "" → apiCalls (handler env apiURL r).2 = []) := by
    have hcalls : (apiCalls (getUserGroups env apiURL (accessToken r)).2).length ≤ 1 := by
      rw [getUserGroups_trace]
      cases http.NewRequest env "GET" (usersURL apiURL) none <;> simp [apiCalls]
    by_cases htok : accessToken r = ""
    · rw [handler_no_token env apiURL r htok]
      simp [htok, lookupCalls, apiCalls]
    · cases hl : (getUserGroups env apiURL (accessToken r)).1 with
      | error err =>
        rw [handler_lookup_error env apiURL r err htok hl]
        simp only [lookupCalls_append, apiCalls_append, lookupCalls, apiCalls,
          List.append_nil, htok, if_false]
        exact ⟨getUserGroups_lookupCalls env apiURL _, hcalls, fun h0 => absurd h0 (by simp)⟩
      | ok groups =>
        by_cases hg : groups = []
        · subst hg
          rw [handler_lookup_empty env apiURL r htok hl]
          simp only [lookupCalls_append, apiCalls_append, lookupCalls, apiCalls,
            List.append_nil, htok, if_false]
          exact ⟨getUserGroups_lookupCalls env apiURL _, hcalls, fun h0 => absurd h0 (by simp)⟩
        · rw [handler_lookup_groups env apiURL r groups htok hl hg]
          simp only [lookupCalls_append, apiCalls_append, lookupCalls, apiCalls,
            List.append_nil, htok, if_false]
          exact ⟨getUserGroups_lookupCalls env apiURL _, hcalls, fun h0 => absurd h0 (by simp)⟩
  refine ⟨key.1, ?_, key.2.1, key.2.2⟩
  intro c hc
  rw [key.1] at hc
  by_cases htok : accessToken r = ""
  · simp [htok] at hc
  · simp only [htok, if_false, List.mem_singleton] at hc
    subst hc
    exact htok

/-- C9, as stated, fails in two ways. With the API base address
"https://kubernetes.default.svc\n" (a trailing newline) the URL text does not
parse: `getUserGroups` returns the error of `http.NewRequest` and passes no request
to `client.Do`. With the base address "HTTPS://kubernetes.default.svc" the request
is sent, and its URL is the parsed one, with the scheme in lower case, not the
text `apiURL ++ "/apis/user.openshift.io/v1/users/~"`. -/
theorem no_request_for_unparsable_address :
    (getUserGroups (sampleEnv 200 (userBody "alice" ["admins"]))
      "https://kubernetes.default.svc\n" "tok-valid").1 = .error (errors.New
        "parse \"https://kubernetes.default.svc\\n/apis/user.openshift.io/v1/users/~\": net/url: invalid control character in URL") ∧
    apiCalls (getUserGroups (sampleEnv 200 (userBody "alice" ["admins"]))
      "https://kubernetes.default.svc\n" "tok-valid").2 = [] ∧
    (apiCalls (getUserGroups (sampleEnv 200 (userBody "alice" ["admins"]))
      "HTTPS://kubernetes.default.svc" "tok-valid").2).map (fun req => req.URL)
      = ["https://kubernetes.default.svc/apis/user.openshift.io/v1/users/~"] ∧
    "https://kubernetes.default.svc/apis/user.openshift.io/v1/users/~" ≠
      "HTTPS://kubernetes.default.svc" ++ "/apis/user.openshift.io/v1/users/~" :=
  ⟨by decide, rfl, by decide, by decide⟩

/-- C9, amended: for every API base address `apiURL` and token, when
`http.NewRequest` accepts the URL text `apiURL ++ "/apis/user.openshift.io/v1/users/~"`
and parses it to `u`, `getUserGroups` passes exactly one request to `client.Do`; it
has method GET, the URL `u`, no body, and a header map whose only key is
`Authorization`, bound to the single value `"Bearer " ++ token`. When
`http.NewRequest` rejects the text, `getUserGroups` returns that error and passes
no request to `client.Do`. -/
theorem lookup_request_built (env : Env) (apiURL token : String) :
    (∀ u, env.parseURL (apiURL ++ "/apis/user.openshift.io/v1/users/~") = .ok u →
      ∃ req, apiCalls (getUserGroups env apiURL token).2 = [req] ∧
        req.Method = "GET" ∧
        req.URL = u ∧
        req.Body = none ∧
        req.Header "Authorization" = some ["Bearer " ++ token] ∧
        req.Header.Values "Authorization" = ["Bearer " ++ token] ∧
        (∀ k, k ≠ "Authorization" → req.Header k = none)) ∧
    (∀ err, env.parseURL (apiURL ++ "/apis/user.openshift.io/v1/users/~") = .error err →
      (getUserGroups env apiURL token).1 = .error err ∧
      apiCalls (getUserGroups env apiURL token).2 = []) := by
  have ht := getUserGroups_trace env apiURL token
  constructor
  · intro u hu
    have h1 : http.NewRequest env "GET" (usersURL apiURL) none = .ok (getRequest u) := by
      unfold http.NewRequest usersURL
      rw [hu]
      rfl
    rw [h1] at ht
    refine ⟨withAuthorization (getRequest u) token, ?_, rfl, rfl, rfl, ?_, ?_, ?_⟩
    · rw [ht]
      rfl
    · simp [withAuthorization, Header.Set, canonical_authorization_key]
    · simp [withAuthorization, Header.Values, Header.Set, canonical_authorization_key]
    · intro k hk
      simp [withAuthorization, getRequest, Header.Set, canonical_authorization_key, hk,
        Header.empty]
  · intro err herr
    have h1 : http.NewRequest env "GET" (usersURL apiURL) none = .error err := by
      unfold http.NewRequest usersURL
      rw [herr]
    rw [getUserGroups_request_error env apiURL token err h1]
    exact ⟨rfl, rfl⟩

/-- The default API address "https://kubernetes.default.svc" and token "tok-valid";
and the same address followed by a tab, which `url.Parse` rejects. -/
theorem lookup_request_built_witness :
    (∃ req, apiCalls (getUserGroups (sampleEnv 200 (userBody "alice" ["admins"]))
        "https://kubernetes.default.svc" "tok-valid").2 = [req] ∧
      req.Method = "GET" ∧
      req.URL = "https://kubernetes.default.svc/apis/user.openshift.io/v1/users/~" ∧
      req.Body = none ∧
      req.Header "Authorization" = some ["Bearer tok-valid"] ∧
      req.Header.Values "Authorization" = ["Bearer tok-valid"] ∧
      (∀ k, k ≠ "Authorization" → req.Header k = none)) ∧
    ((getUserGroups (sampleEnv 200 (userBody "alice" ["admins"]))
        "https://kubernetes.default.svc\t" "tok-valid").1 = .error (errors.New
          "parse \"https://kubernetes.default.svc\\t/apis/user.openshift.io/v1/users/~\": net/url: invalid control character in URL") ∧
      apiCalls (getUserGroups (sampleEnv 200 (userBody "alice" ["admins"]))
        "https://kubernetes.default.svc\t" "tok-valid").2 = []) :=
  ⟨(lookup_request_built (sampleEnv 200 (userBody "alice" ["admins"]))
      "https://kubernetes.default.svc" "tok-valid").1
      "https://kubernetes.default.svc/apis/user.openshift.io/v1/users/~" rfl,
    (lookup_request_built (sampleEnv 200 (userBody "alice" ["admins"]))
      "https://kubernetes.default.svc\t" "tok-valid").2 _ rfl⟩

/-! ## The header encoding -/

/-- C10: the lists ["a,b"] and ["a", "b"] are different and non-empty, yet a handler
run whose lookup returns the one and a run whose lookup returns the other forward
the same request, with `X-Forwarded-Groups` bound to the single value "a,b"; a
one-element list is encoded as its element unchanged, and the joining on "," is
not injective on non-empty lists. -/
theorem groups_header_ambiguous (env₁ env₂ : Env) (apiURL : String) (r : Request)
    (htok : accessToken r ≠ "")
    (h₁ : (getUserGroups env₁ apiURL (accessToken r)).1 = .ok ["a,b"])
    (h₂ : (getUserGroups env₂ apiURL (accessToken r)).1 = .ok ["a", "b"]) :
    (["a,b"] : List String) ≠ ["a", "b"] ∧
    (∃ r1, forwardedRequests (handler env₁ apiURL r).2 = [r1] ∧
      forwardedRequests (handler env₂ apiURL r).2 = [r1] ∧
      r1.Header "X-Forwarded-Groups" = some ["a,b"]) ∧
    (∀ g : String, strings.Join [g] "," = g) ∧
    ¬ Set.InjOn (fun groups => strings.Join groups ",") {groups | groups ≠ []} := by
  have hjoin : strings.Join ["a,b"] "," = strings.Join ["a", "b"] "," := by decide
  refine ⟨by decide, ⟨withGroups r ["a,b"], ?_, ?_, ?_⟩, fun _ => rfl, ?_⟩
  · rw [handler_lookup_groups env₁ apiURL r _ htok h₁ (by simp)]
    simp [forwardedRequests_append, forwardedRequests]
    exact getUserGroups_forwarded env₁ apiURL _
  · rw [handler_lookup_groups env₂ apiURL r _ htok h₂ (by simp)]
    simp only [forwardedRequests_append, forwardedRequests, List.append_nil,
      getUserGroups_forwarded, List.nil_append]
    simp only [withGroups, hjoin]
  · rw [withGroups_groups_key]
    rfl
  · intro hinj
    have := @hinj ["a,b"] (by simp) ["a", "b"] (by simp) hjoin
    exact absurd this (by decide)

/-- Two identity APIs, one returning ["a,b"] and one returning ["a", "b"], for the
same request with token "tok-valid". -/
theorem groups_header_ambiguous_witness :
    accessToken (tokenRequest "tok-valid") ≠ "" ∧
    (getUserGroups (sampleEnv 200 (userBody "alice" ["a,b"])) "https://api"
      (accessToken (tokenRequest "tok-valid"))).1 = .ok ["a,b"] ∧
    (getUserGroups (sampleEnv 200 (userBody "alice" ["a", "b"])) "https://api"
      (accessToken (tokenRequest "tok-valid"))).1 = .ok ["a", "b"] ∧
    (["a,b"] : List String) ≠ ["a", "b"] ∧
    (∃ r1, forwardedRequests (handler (sampleEnv 200 (userBody "alice" ["a,b"])) "https://api"
        (tokenRequest "tok-valid")).2 = [r1] ∧
      forwardedRequests (handler (sampleEnv 200 (userBody "alice" ["a", "b"])) "https://api"
        (tokenRequest "tok-valid")).2 = [r1] ∧
      r1.Header "X-Forwarded-Groups" = some ["a,b"]) ∧
    (∀ g : String, strings.Join [g] "," = g) ∧
    ¬ Set.InjOn (fun groups => strings.Join groups ",") {groups | groups ≠ []} :=
  ⟨by decide, by decide, by decide,
    groups_header_ambiguous (sampleEnv 200 (userBody "alice" ["a,b"])) (sampleEnv 200 (userBody "alice" ["a", "b"]))
      "https://api" (tokenRequest "tok-valid") (by decide) (by decide) (by decide)⟩

end GroupsInjector
